import Mathlib

/-!
# Port pool allocator (`src/port_pool.go`, `src/state.go`)

Shallow embedding of the segmented port pool and, further down, of the
container state manager that draws its host ports from it.  Go's `uint32` values are
natural numbers reduced modulo `2^32` wherever the source performs
arithmetic on them; a run-time fault of the Go program (integer division by
zero, index or slice bound out of range) is the value `none`.
-/

namespace PortPoolModel

/-- Reduction of a natural number to Go's `uint32`. -/
def u32 (n : Nat) : Nat := n % 4294967296

/-- Subtraction `a - b` on `uint32` operands (wraps around below zero). -/
def sub32 (a b : Nat) : Nat := (a + 4294967296 - b % 4294967296) % 4294967296

/-- Conversion `uint32(index)` of a Go `int`. -/
def toU32 (index : Int) : Nat := (index % 4294967296).toNat

/-- The record `State` of `state.go`. -/
structure State where
  Offset : Nat
deriving DecidableEq, Repr

/-- The type `States` of `state.go`. -/
abbrev States := List State

/-- The record `PortPool`; the mutex and the unused field `states` are left out. -/
structure PortPool where
  start : Nat
  size : Nat
  pools : List (List Nat)
deriving DecidableEq, Repr

/-- The error values the port pool returns. -/
inductive Error where
  | PoolExhaustedError
  | PortTakenError (Port : Nat)
  | InvalidPortRange (start size : Nat)
deriving DecidableEq, Repr

deriving instance DecidableEq for Except

/-- The loop `for port := ...; port < bound; port++ { pool[i] = port; i += 1 }`
with `n = bound - port` iterations left; the write `pool[i] = port` faults
when `i` is not an index of `pool`. -/
def writeLoop : Nat → Nat → Nat → List Nat → Option (List Nat × Nat)
  | 0, _, i, pool => some (pool, i)
  | n + 1, port, i, pool =>
    if i < pool.length then writeLoop n (port + 1) (i + 1) (pool.set i port) else none

/-- The function `fill`. -/
def fill (start size : Nat) (state : State) : Option (List Nat) :=
  let Offset := if state.Offset ≥ size then 0 else state.Offset
  let pool := List.replicate size 0
  match writeLoop (u32 (start + size) - u32 (start + Offset)) (u32 (start + Offset)) 0 pool with
  | none => none
  | some (pool, i) =>
    match writeLoop (u32 (start + Offset) - start) start i pool with
    | none => none
    | some (pool, _) => some pool

/-- The loop `for i, _ := range pools` of `New`, over the indices still to visit. -/
def newLoop (start step : Nat) (states : States) : List Nat → Option (List (List Nat))
  | [] => some []
  | i :: rest =>
    match states[i]? with
    | none => none
    | some state =>
      match fill (u32 (start + u32 (step * u32 i))) step state with
      | none => none
      | some pool =>
        match newLoop start step states rest with
        | none => none
        | some pools => some (pool :: pools)

/-- The constructor `New`: `some (.error e)` is `(nil, e)`, `some (.ok p)` is
`(p, nil)`, and `none` is a run-time fault. -/
def New (start size groups : Nat) (states : States) : Option (Except Error PortPool) :=
  if u32 (start + size) > 65535 then some (.error (.InvalidPortRange start size))
  else if groups = 0 then none
  else
    match newLoop start (size / groups) states (List.range groups) with
    | none => none
    | some pools => some (.ok { start := start, size := size, pools := pools })

/-- The function `acquire`. -/
def acquire (pool : List Nat) : Nat × List Nat :=
  match pool with
  | [] => (0, pool)
  | port :: rest => (port, rest)

/-- The method `Acquire`: the returned pair `(port, err)` and the pool afterwards. -/
def Acquire (p : PortPool) (index : Int) : Option ((Nat × Option Error) × PortPool) :=
  let i := if index > (p.pools.length : Int) then 0 else toU32 index
  match p.pools[i]? with
  | none => none
  | some pool =>
    let r := acquire pool
    let p' : PortPool := { p with pools := p.pools.set i r.2 }
    if r.1 = 0 then some ((0, some .PoolExhaustedError), p') else some ((r.1, none), p')

/-- The inner loop of `Remove`: the first index at which `port` stands. -/
def scan (port : Nat) : List Nat → Nat → Option Nat
  | [], _ => none
  | existingPort :: rest, i => if existingPort = port then some i else scan port rest (i + 1)

/-- The outer loop of `Remove` over the groups still to visit, carrying `idx`
and `found`. -/
def removeLoop (port : Nat) : List (List Nat) → Nat → Bool → Option (List (List Nat) × Bool)
  | [], _, found => some ([], found)
  | pool :: rest, idx, found =>
    let idx' := match scan port pool 0 with
      | some i => i
      | none => idx
    let found' := match scan port pool 0 with
      | some _ => true
      | none => found
    if idx' + 1 ≤ pool.length then
      match removeLoop port rest idx' found' with
      | none => none
      | some (pools, f) => some ((pool.take idx' ++ pool.drop (idx' + 1)) :: pools, f)
    else none

/-- The method `Remove`: the returned error and the pool afterwards. -/
def Remove (p : PortPool) (port : Nat) : Option (Option Error × PortPool) :=
  match removeLoop port p.pools 0 false with
  | none => none
  | some (pools, found) =>
    if found then some (none, { p with pools := pools })
    else some (some (.PortTakenError port), { p with pools := pools })

/-- The second loop of `Release`, `for i := 0; i < len(p.pools); i++`, with
`n` iterations left. -/
def releaseLoop (p : PortPool) (port : Nat) : Nat → Nat → PortPool
  | 0, _ => p
  | n + 1, i =>
    if port ≥ u32 (p.start + u32 (u32 i * p.size) / u32 p.pools.length) then
      { p with pools := p.pools.modify (fun pool => pool ++ [port]) i }
    else releaseLoop p port n (i + 1)

/-- The method `Release`.  The divisor `uint32(len(p.pools))` is only evaluated
inside the loop, where the length is positive. -/
def Release (p : PortPool) (port : Nat) : PortPool :=
  if port < p.start ∨ port ≥ u32 (p.start + p.size) then p
  else if p.pools.any (fun pool => pool.any (fun existingPort => existingPort == port)) then p
  else releaseLoop p port p.pools.length 0

/-- The loop of `RefreshState` over the groups still to visit, `i` being the
index of the first of them. -/
def refreshLoop (p : PortPool) : List (List Nat) → Nat → States
  | [], _ => []
  | pool :: rest, i =>
    let state : State :=
      match pool with
      | [] => { Offset := 0 }
      | head :: _ =>
        let Offset := sub32 (sub32 head p.start) (u32 (u32 i * p.size) / u32 p.pools.length)
        if Offset > p.size then { Offset := 0 } else { Offset := Offset }
    state :: refreshLoop p rest (i + 1)

/-- The method `RefreshState`. -/
def RefreshState (p : PortPool) : States := refreshLoop p p.pools 0

/-- The calls a client can make on a pool. -/
inductive Op where
  | Acquire (index : Int)
  | Release (port : Nat)
  | Remove (port : Nat)
deriving DecidableEq, Repr

/-- One call: the pool afterwards, `none` when the call faults. -/
def step (p : PortPool) : Op → Option PortPool
  | .Acquire index => (Acquire p index).map (fun r => r.2)
  | .Release port => some (Release p port)
  | .Remove port => (Remove p port).map (fun r => r.2)

/-- A sequence of calls, none of which faults. -/
def run (p : PortPool) : List Op → Option PortPool
  | [] => some p
  | op :: ops =>
    match step p op with
    | none => none
    | some p' => run p' ops

/-- `n` consecutive calls `Acquire(index)`: the results in order and the pool
afterwards. -/
def acquireN (p : PortPool) (index : Int) : Nat → Option (List (Nat × Option Error) × PortPool)
  | 0 => some ([], p)
  | n + 1 =>
    match Acquire p index with
    | none => none
    | some (r, p') =>
      match acquireN p' index n with
      | none => none
      | some (rs, p'') => some (r :: rs, p'')


/-! ## Definitions used to state what `fill` and `New` build -/

/-- The offset `fill` works with: a saved offset not below the group size counts as 0. -/
def normOffset (size : Nat) (state : State) : Nat :=
  if state.Offset ≥ size then 0 else state.Offset

/-- The rotation of the sub-range `[start, start + size)` that starts at the saved offset. -/
def rotation (start size : Nat) (state : State) : List Nat :=
  List.range' (start + normOffset size state) (size - normOffset size state)
    ++ List.range' start (normOffset size state)

/-- The groups `New` builds: group `i` is the rotation of its sub-range. -/
def freshPools (start size groups : Nat) (states : States) : List (List Nat) :=
  (List.range groups).map
    (fun i => rotation (start + size / groups * i) (size / groups) (states.getD i ⟨0⟩))

end PortPoolModel

/-!
# Container state manager (`src/linux_container.go`, `src/policy_broker.go`)
-/

namespace LinuxContainerModel

open PortPoolModel (u32)

/-! ### `ProcessIDPool` -/

/-- The record `ProcessIDPool`; the mutex is left out. -/
structure ProcessIDPool where
  currentProcessID : Nat
deriving DecidableEq, Repr

/-- The method `ProcessIDPool.Next`: the returned id and the pool afterwards. -/
def ProcessIDPool.Next (p : ProcessIDPool) : Nat × ProcessIDPool :=
  let p' : ProcessIDPool := { currentProcessID := u32 (p.currentProcessID + 1) }
  (p'.currentProcessID, p')

/-- The method `ProcessIDPool.Restore`. -/
def ProcessIDPool.Restore (p : ProcessIDPool) (id : Nat) : ProcessIDPool :=
  if id ≥ p.currentProcessID then { currentProcessID := id } else p

/-- The calls a client can make on a `ProcessIDPool`. -/
inductive PidCall where
  | Next
  | Restore (id : Nat)
deriving DecidableEq, Repr

/-- A sequence of calls on a `ProcessIDPool`: the values returned by the `Next`
calls, in order, and the pool afterwards. -/
def pidRun (p : ProcessIDPool) : List PidCall → List Nat × ProcessIDPool
  | [] => ([], p)
  | .Next :: rest =>
    let r := pidRun (p.Next).2 rest
    ((p.Next).1 :: r.1, r.2)
  | .Restore id :: rest => pidRun (p.Restore id) rest

/-- No `Next` call of the sequence is made on the counter value `2^32 - 1`. -/
def noWrap (p : ProcessIDPool) : List PidCall → Bool
  | [] => true
  | .Next :: rest => decide (p.currentProcessID + 1 < 4294967296) && noWrap (p.Next).2 rest
  | .Restore id :: rest => noWrap (p.Restore id) rest

/-! ### Container properties -/

/-- The type `garden.Properties`, a Go `map[string]string`: its entries in
iteration order, a key being looked up at its first entry. -/
abbrev Properties := List (String × String)

/-- The map read `m[key]`. -/
def mapGet : Properties → String → Option String
  | [], _ => none
  | (k, v) :: rest, key => if k = key then some v else mapGet rest key

/-- The built-in `delete(m, key)`. -/
def mapDelete (m : Properties) (key : String) : Properties :=
  m.filter (fun e => decide (e.1 ≠ key))

/-- The map write `m[key] = value`. -/
def mapSet (m : Properties) (key value : String) : Properties :=
  (key, value) :: mapDelete m key

/-- The errors a container returns; collaborator and script errors carry their message. -/
inductive ContainerError where
  | UndefinedPropertyError (Key : String)
  | PortPool (e : PortPoolModel.Error)
  | Collaborator (msg : String)
deriving DecidableEq, Repr

/-- The record `linux_backend.NetInSpec`. -/
structure NetInSpec where
  HostPort : Nat
  ContainerPort : Nat
deriving DecidableEq, Repr

/-- The fields of `linux_backend.LinuxContainerSpec` the modelled methods read or
write; `Ports` is `Resources.Ports`, `ExternalIP` is `Resources.ExternalIP`,
`MemoryLimit` is `Limits.Memory` and a net-out rule is kept as an opaque string. -/
structure LinuxContainerSpec where
  ID : String
  ContainerPath : String
  State : String
  Events : List String
  Env : List String
  Properties : Properties
  NetIns : List NetInSpec
  NetOuts : List String
  Processes : List Nat
  MemoryLimit : Option Nat
  Ports : List Nat
  ExternalIP : String
deriving DecidableEq, Repr

/-- The record `LinuxContainer`: the embedded spec, the port pool and the process
id pool; mutexes, logger and the collaborators are left out (the outcomes of
collaborator calls are given by a `World`). -/
structure LinuxContainer where
  spec : LinuxContainerSpec
  portPool : PortPoolModel.PortPool
  processIDPool : ProcessIDPool
deriving DecidableEq, Repr

/-- The constructor `NewLinuxContainer`. -/
def NewLinuxContainer (spec : LinuxContainerSpec) (portPool : PortPoolModel.PortPool) :
    LinuxContainer :=
  { spec := spec, portPool := portPool, processIDPool := { currentProcessID := 0 } }

/-- The method `Property`: the returned pair `(value, err)`. -/
def LinuxContainer.Property (c : LinuxContainer) (key : String) :
    String × Option ContainerError :=
  match mapGet c.spec.Properties key with
  | none => ("", some (.UndefinedPropertyError key))
  | some value => (value, none)

/-- The method `SetProperty`: the returned error and the container afterwards.
The loop copies the entries into a fresh map. -/
def LinuxContainer.SetProperty (c : LinuxContainer) (key value : String) :
    Option ContainerError × LinuxContainer :=
  let props : Properties := c.spec.Properties.foldl (fun props e => mapSet props e.1 e.2) []
  let props := mapSet props key value
  (none, { c with spec := { c.spec with Properties := props } })

/-- The method `RemoveProperty`: the returned error and the container afterwards. -/
def LinuxContainer.RemoveProperty (c : LinuxContainer) (key : String) :
    Option ContainerError × LinuxContainer :=
  match mapGet c.spec.Properties key with
  | none => (some (.UndefinedPropertyError key), c)
  | some _ =>
    (none, { c with spec := { c.spec with Properties := mapDelete c.spec.Properties key } })

/-- The loop of `HasProperties` over the entries still to visit. -/
def hasPropertiesLoop (props : Properties) : Properties → Bool
  | [] => true
  | (k, v) :: rest =>
    match mapGet props k with
    | none => false
    | some value => if value ≠ v then false else hasPropertiesLoop props rest

/-- The method `HasProperties`. -/
def LinuxContainer.HasProperties (c : LinuxContainer) (properties : Properties) : Bool :=
  hasPropertiesLoop c.spec.Properties properties

/-! ### The policy service, `NetIn` and `Restore` -/

/-- What `http.Get` and `http.Post` return: a response with no error, or no
response (`nil`) and an error. -/
inductive HttpResult where
  | response (StatusCode : Nat) (Body : String)
  | failure
deriving DecidableEq, Repr

/-- The errors of `strconv`. -/
inductive NumError where
  | ErrSyntax
  | ErrRange
deriving DecidableEq, Repr

/-- The digit loop that `strconv.Atoi` runs (`strconv.ParseUint`, base 10, 64
bits): the value of a run of decimal digits after the accumulator `n`; it stops
with `ErrSyntax` at a byte that is not a digit and with `ErrRange` as soon as
the value exceeds `2^64 - 1`. -/
def parseDigits : List Char → Nat → Except NumError Nat
  | [], n => .ok n
  | ch :: rest, n =>
    if '0' ≤ ch ∧ ch ≤ '9' then
      if n * 10 + (ch.toNat - 48) > 18446744073709551615 then .error .ErrRange
      else parseDigits rest (n * 10 + (ch.toNat - 48))
    else .error .ErrSyntax

/-- Go's `strconv.Atoi` for a 64-bit `int`: an optional sign and at least one
decimal digit; the value is 0 on a syntax error and the nearest bound on a
range error. -/
def Atoi (s : String) : Int × Option NumError :=
  match s.data with
  | [] => (0, some .ErrSyntax)
  | c0 :: rest =>
    let digits := if c0 = '-' ∨ c0 = '+' then rest else c0 :: rest
    if digits = [] then (0, some .ErrSyntax)
    else
      match parseDigits digits 0 with
      | .error .ErrSyntax => (0, some .ErrSyntax)
      | .error .ErrRange =>
        if c0 = '-' then (-9223372036854775808, some .ErrRange)
        else (9223372036854775807, some .ErrRange)
      | .ok n =>
        if c0 = '-' then
          if n > 9223372036854775808 then (-9223372036854775808, some .ErrRange)
          else (-(n : Int), none)
        else
          if n ≥ 9223372036854775808 then (9223372036854775807, some .ErrRange)
          else ((n : Int), none)

/-- The backtracking of `path.Clean` at a `..` element, on the output buffer in
reverse: `out.w--`, then `out.w--` again while `out.w > dotdot` and the byte
just left is not a slash. -/
def path.backtrack (dotdot : Nat) : List Char → List Char
  | [] => []
  | ch :: out => if out.length > dotdot ∧ ch ≠ '/' then path.backtrack dotdot out else out

/-- The loop `for r < n` of Go's `path.Clean` over the bytes still to read, the
output buffer being kept in reverse; at most `fuel` iterations. -/
def path.cleanLoop (rooted : Bool) : Nat → List Char → List Char → Nat → List Char
  | 0, _, out, _ => out
  | _ + 1, [], out, _ => out
  | fuel + 1, c :: rest, out, dotdot =>
    if c = '/' then path.cleanLoop rooted fuel rest out dotdot
    else if c = '.' ∧ (rest = [] ∨ rest.head? = some '/') then
      path.cleanLoop rooted fuel rest out dotdot
    else if c = '.' ∧ rest.head? = some '.' ∧ (rest.tail = [] ∨ rest.tail.head? = some '/') then
      if out.length > dotdot then
        path.cleanLoop rooted fuel rest.tail (path.backtrack dotdot out) dotdot
      else if rooted = false then
        let out1 := if out.length > 0 then '/' :: out else out
        path.cleanLoop rooted fuel rest.tail ('.' :: '.' :: out1) (out1.length + 2)
      else path.cleanLoop rooted fuel rest.tail out dotdot
    else
      let out1 :=
        if (rooted = true ∧ out.length ≠ 1) ∨ (rooted = false ∧ out.length ≠ 0) then '/' :: out
        else out
      path.cleanLoop rooted fuel ((c :: rest).dropWhile (fun ch => ch ≠ '/'))
        (((c :: rest).takeWhile (fun ch => ch ≠ '/')).reverse ++ out1) dotdot

/-- Go's library function `path.Clean`. -/
def path.Clean (p : String) : String :=
  match p.data with
  | [] => "."
  | c :: rest =>
    let out :=
      if c = '/' then path.cleanLoop true (rest.length + 1) rest ['/'] 1
      else path.cleanLoop false (rest.length + 2) (c :: rest) [] 0
    if out = [] then "." else String.mk out.reverse

/-- Go's library function `path.Join`: the elements from the first non-empty
one on, joined with slashes and cleaned; the empty string when all are empty. -/
def path.Join : List String → String
  | [] => ""
  | e :: rest => if e = "" then path.Join rest else path.Clean ("/".intercalate (e :: rest))

/-- The command a container hands to its command runner, as `exec.Command` is
given it: `Path` is the command name, `Args` the argument vector, whose first
entry is the command name, and `Env` the environment. -/
structure Cmd where
  Path : String
  Args : List String
  Env : List String
deriving DecidableEq, Repr

/-- What the container's surroundings answer: the package variable `Url`, the
environment variable `PATH`, the outcome of each HTTP request, and the error
(if any) each collaborator call returns.  `LimitMemory` is the container method
of that name, whose source is not part of the modelled files; of it only the
returned error is kept. -/
structure World where
  Url : String
  PATH : String
  httpGet : String → HttpResult
  httpPost : String → String → HttpResult
  Run : Cmd → Option String
  LimitMemory : Nat → Option String
  ContainerSetup : String → Option String
  NetOut : String → Option String

/-- A world in which every request is answered and every collaborator call succeeds. -/
def quietWorld : World :=
  { Url := "policy", PATH := "/bin",
    httpGet := fun _ => .response 200 "0",
    httpPost := fun _ _ => .response 200 "",
    Run := fun _ => none,
    LimitMemory := fun _ => none,
    ContainerSetup := fun _ => none,
    NetOut := fun _ => none }

/-- The function `GetUrl`. -/
def GetUrl (w : World) : String := "http://" ++ w.Url ++ ":8000/spacegroup"

/-- The function `GetPoolID`; `none` is the nil dereference of
`defer response.Body.Close()` when `http.Get` returned no response. -/
def GetPoolID (w : World) (space : String) : Option Int :=
  match w.httpGet (GetUrl w ++ "?space=" ++ space) with
  | .failure => none
  | .response _ body => some (Atoi body).1

/-- The function `postendpoint`; `none` is the nil dereference of
`defer response.Body.Close()` when `http.Post` returned no response. -/
def postendpoint (w : World) (space ip : String) (port : Nat) : Option Unit :=
  let b := "\x7b\"space\" : \"" ++ space ++ "\"," ++ "\"endpoint\" : \"" ++ ip ++ ":"
    ++ toString port ++ "\"\x7d"
  match w.httpPost (GetUrl w) b with
  | .failure => none
  | .response _ _ => some ()

/-- The method `Info`, of whose result only `ExternalIP` is kept; its error is
always nil. -/
def LinuxContainer.Info (c : LinuxContainer) : String × Option ContainerError :=
  (c.spec.ExternalIP, none)

/-- The first block of `NetIn`, `if hostPort == 0`: the error of an early
return, the host port to go on with, and the container. -/
def netInAcquire (w : World) (c : LinuxContainer) (hostPort : Nat) :
    Option (Option ContainerError × Nat × LinuxContainer) :=
  if hostPort = 0 then
    let space := (c.Property "network.space_id").1
    match GetPoolID w space with
    | none => none
    | some index =>
      match PortPoolModel.Acquire c.portPool index with
      | none => none
      | some ((randomPort, err), pool) =>
        let c1 : LinuxContainer := { c with portPool := pool }
        match err with
        | some e => some (some (.PortPool e), 0, c1)
        | none =>
          some (none, randomPort,
            { c1 with spec := { c1.spec with Ports := c1.spec.Ports ++ [randomPort] } })
  else some (none, hostPort, c)

/-- The block `if containerPort != 2222` of `NetIn`. -/
def netInNotify (w : World) (c : LinuxContainer) (hostPort containerPort : Nat) : Option Unit :=
  if containerPort ≠ 2222 then
    let info := c.Info
    let prop := c.Property "network.space_id"
    if info.2 = none ∧ prop.2 = none then postendpoint w prop.1 info.1 hostPort else some ()
  else some ()

/-- The command `net` of `NetIn`: `net.sh in` of the container path, with the
resolved ports in its environment. -/
def netCmd (w : World) (c : LinuxContainer) (hostPort containerPort : Nat) : Cmd :=
  { Path := path.Join [c.spec.ContainerPath, "net.sh"],
    Args := [path.Join [c.spec.ContainerPath, "net.sh"], "in"],
    Env := ["HOST_PORT=" ++ toString hostPort, "CONTAINER_PORT=" ++ toString containerPort,
      "PATH=" ++ w.PATH] }

/-- The method `NetIn`: the returned triple `(hostPort, containerPort, err)` and
the container afterwards; `none` is a run-time fault. -/
def LinuxContainer.NetIn (w : World) (c : LinuxContainer) (hostPort containerPort : Nat) :
    Option ((Nat × Nat × Option ContainerError) × LinuxContainer) :=
  match netInAcquire w c hostPort with
  | none => none
  | some (some e, _, c1) => some ((0, 0, some e), c1)
  | some (none, hostPort, c1) =>
    let containerPort := if containerPort = 0 then hostPort else containerPort
    match netInNotify w c1 hostPort containerPort with
    | none => none
    | some _ =>
      let net : Cmd := netCmd w c1 hostPort containerPort
      match w.Run net with
      | some msg => some ((0, 0, some (.Collaborator msg)), c1)
      | none =>
        some ((hostPort, containerPort, none),
          { c1 with spec := { c1.spec with
              NetIns := c1.spec.NetIns ++ [{ HostPort := hostPort, ContainerPort := containerPort }] } })

/-- The method `NetOut`. -/
def LinuxContainer.NetOut (w : World) (c : LinuxContainer) (r : String) :
    Option ContainerError × LinuxContainer :=
  match w.NetOut r with
  | some msg => (some (.Collaborator msg), c)
  | none => (none, { c with spec := { c.spec with NetOuts := c.spec.NetOuts ++ [r] } })

/-- The method `setState`. -/
def LinuxContainer.setState (c : LinuxContainer) (state : String) : LinuxContainer :=
  { c with spec := { c.spec with State := state } }

/-- The method `registerEvent`. -/
def LinuxContainer.registerEvent (c : LinuxContainer) (event : String) : LinuxContainer :=
  { c with spec := { c.spec with Events := c.spec.Events ++ [event] } }

/-- The loop `for _, in := range snapshot.NetIns` of `Restore`. -/
def restoreNetIns (w : World) :
    LinuxContainer → List NetInSpec → Option (Option ContainerError × LinuxContainer)
  | c, [] => some (none, c)
  | c, i :: rest =>
    match c.NetIn w i.HostPort i.ContainerPort with
    | none => none
    | some ((_, _, some err), c') => some (some err, c')
    | some ((_, _, none), c') => restoreNetIns w c' rest

/-- The loop `for _, out := range snapshot.NetOuts` of `Restore`. -/
def restoreNetOuts (w : World) :
    LinuxContainer → List String → Option ContainerError × LinuxContainer
  | c, [] => (none, c)
  | c, out :: rest =>
    match c.NetOut w out with
    | (some err, c') => (some err, c')
    | (none, c') => restoreNetOuts w c' rest

/-- The method `Restore`: the returned error and the container afterwards; `none`
is a run-time fault.  The calls on the process tracker, which return nothing,
are left out. -/
def LinuxContainer.Restore (w : World) (c : LinuxContainer) (snapshot : LinuxContainerSpec) :
    Option (Option ContainerError × LinuxContainer) :=
  let c := c.setState snapshot.State
  let c : LinuxContainer := { c with spec := { c.spec with Env := snapshot.Env } }
  let c := snapshot.Events.foldl LinuxContainer.registerEvent c
  let limited : Option String :=
    match snapshot.MemoryLimit with
    | some limit => w.LimitMemory limit
    | none => none
  match limited with
  | some msg => some (some (.Collaborator msg), c)
  | none =>
    let c : LinuxContainer :=
      { c with processIDPool := snapshot.Processes.foldl ProcessIDPool.Restore c.processIDPool }
    match w.ContainerSetup snapshot.ID with
    | some msg => some (some (.Collaborator msg), c)
    | none =>
      match restoreNetIns w c snapshot.NetIns with
      | none => none
      | some (some err, c) => some (some err, c)
      | some (none, c) =>
        match restoreNetOuts w c snapshot.NetOuts with
        | (some err, c) => some (some err, c)
        | (none, c) => some (none, c)

/-- The mapping `NetIn` records for a call with a non-zero host port. -/
def resolved (i : NetInSpec) : NetInSpec :=
  { HostPort := i.HostPort,
    ContainerPort := if i.ContainerPort = 0 then i.HostPort else i.ContainerPort }

/-! ### `NetIn` with a given host port, `Start`, `Stop` and the locks of `Snapshot` -/

/-- The constant `linux_backend.StateActive`. -/
def StateActive : String := "active"

/-- The constant `linux_backend.StateStopped`. -/
def StateStopped : String := "stopped"

/-- The collaborator calls `Start` and `Stop` make: the iptables manager's
`ContainerSetup`, the command runner's `Run` and the OOM watcher's `Unwatch`. -/
inductive Call where
  | ContainerSetup (id : String)
  | Run (cmd : Cmd)
  | Unwatch
deriving DecidableEq, Repr

/-- The command `start` of `Start`: `start.sh` of the container path. -/
def startCmd (w : World) (c : LinuxContainer) : Cmd :=
  { Path := path.Join [c.spec.ContainerPath, "start.sh"],
    Args := [path.Join [c.spec.ContainerPath, "start.sh"]],
    Env := ["id=" ++ c.spec.ID, "PATH=" ++ w.PATH] }

/-- The command `stop` of `Stop`: `stop.sh` of the container path, with `-w 0`
when `kill` is set. -/
def stopCmd (c : LinuxContainer) (kill : Bool) : Cmd :=
  { Path := path.Join [c.spec.ContainerPath, "stop.sh"],
    Args := if kill then [path.Join [c.spec.ContainerPath, "stop.sh"], "-w", "0"]
      else [path.Join [c.spec.ContainerPath, "stop.sh"]],
    Env := [] }

/-- The method `Start`: the returned error, the container afterwards and the
collaborator calls made, in order. -/
def LinuxContainer.Start (w : World) (c : LinuxContainer) :
    (Option ContainerError × LinuxContainer) × List Call :=
  match w.ContainerSetup c.spec.ID with
  | some msg =>
    ((some (.Collaborator ("container: start: " ++ msg)), c), [.ContainerSetup c.spec.ID])
  | none =>
    let start : Cmd := startCmd w c
    match w.Run start with
    | some msg =>
      ((some (.Collaborator ("container: start: " ++ msg)), c),
        [.ContainerSetup c.spec.ID, .Run start])
    | none => ((none, c.setState StateActive), [.ContainerSetup c.spec.ID, .Run start])

/-- The method `Cleanup`: the returned error (always nil) and the calls made. -/
def LinuxContainer.Cleanup (_c : LinuxContainer) : Option ContainerError × List Call :=
  (none, [.Unwatch])

/-- The method `Stop`: the returned error, the container afterwards and the
collaborator calls made, in order. -/
def LinuxContainer.Stop (w : World) (c : LinuxContainer) (kill : Bool) :
    (Option ContainerError × LinuxContainer) × List Call :=
  let stop : Cmd := stopCmd c kill
  match w.Run stop with
  | some msg => ((some (.Collaborator msg), c), [.Run stop])
  | none =>
    match c.Cleanup with
    | (some err, calls) => ((some err, c), .Run stop :: calls)
    | (none, calls) => ((none, c.setState StateStopped), .Run stop :: calls)

/-- The mutexes of `LinuxContainer`. -/
inductive Mutex where
  | propertiesMutex
  | stateMutex
  | eventsMutex
  | bandwidthMutex
  | diskMutex
  | memoryMutex
  | cpuMutex
  | netInsMutex
  | netOutsMutex
  | graceTimeMutex
deriving DecidableEq, Repr

/-- What a method does to the mutexes, and the point at which `Snapshot` encodes
its document. -/
inductive LockEvent where
  | RLock (m : Mutex)
  | RUnlock (m : Mutex)
  | Encode
deriving DecidableEq, Repr

/-- The lock operations of the method `Properties`. -/
def PropertiesLocks : List LockEvent := [.RLock .propertiesMutex, .RUnlock .propertiesMutex]

/-- The lock operations of the method `State`. -/
def StateLocks : List LockEvent := [.RLock .stateMutex, .RUnlock .stateMutex]

/-- The lock operations of the method `Events`. -/
def EventsLocks : List LockEvent := [.RLock .eventsMutex, .RUnlock .eventsMutex]

/-- The lock operations of the method `Snapshot` in program order: six read
locks whose release is deferred, the calls of `Properties`, `State` and `Events`
that build the document (`ID`, `Handle` and `RootFSPath` take no lock), the
encoding, and the deferred releases in reverse order. -/
def SnapshotLocks : List LockEvent :=
  [.RLock .bandwidthMutex, .RLock .cpuMutex, .RLock .diskMutex, .RLock .memoryMutex,
    .RLock .netInsMutex, .RLock .netOutsMutex]
  ++ PropertiesLocks ++ StateLocks ++ EventsLocks
  ++ [.Encode]
  ++ [.RUnlock .netOutsMutex, .RUnlock .netInsMutex, .RUnlock .memoryMutex, .RUnlock .diskMutex,
    .RUnlock .cpuMutex, .RUnlock .bandwidthMutex]

/-- The read locks held after a sequence of lock operations, in the order they
were acquired. -/
def heldAfter : List LockEvent → List Mutex → List Mutex
  | [], held => held
  | .RLock m :: rest, held => heldAfter rest (held ++ [m])
  | .RUnlock m :: rest, held => heldAfter rest (held.erase m)
  | .Encode :: rest, held => heldAfter rest held

/-- The read locks held at the moment of encoding, in the order they were acquired. -/
def heldAtEncode : List LockEvent → List Mutex → Option (List Mutex)
  | [], _ => none
  | .RLock m :: rest, held => heldAtEncode rest (held ++ [m])
  | .RUnlock m :: rest, held => heldAtEncode rest (held.erase m)
  | .Encode :: _, held => some held

end LinuxContainerModel

namespace PortPoolModel

/-! ## Evaluations of `Release`, `Remove` and `Acquire` on concrete pools -/

/-- C1: on the pool with groups `[1001]` and `[1003]` over the range
`[1000, 1004)` (two groups of size 2), the absent port 1002, whose position
belongs to group `(1002 - 1000) / 2 = 1`, is appended by `Release` to group 0
and group 1 is left as it was. -/
theorem Release_appends_to_first_group :
    (1002 - 1000) / (4 / 2) = 1 ∧
    Release ⟨1000, 4, [[1001], [1003]]⟩ 1002 = ⟨1000, 4, [[1001, 1002], [1003]]⟩ := by
  decide

/-- C2: removing the available port 1000 from the pool with groups
`[1000, 1001]` and `[1002, 1003]` returns no error but also takes the head
1002 out of the other group. -/
theorem Remove_present_excises_other_group :
    Remove ⟨1000, 4, [[1000, 1001], [1002, 1003]]⟩ 1000
      = some (none, ⟨1000, 4, [[1001], [1003]]⟩) := by
  decide

/-- C3: removing the absent port 1000 returns `PortTakenError{1000}` yet
takes the head of every group out of the pool, and faults when a group is
empty. -/
theorem Remove_absent_excises_heads :
    Remove ⟨1000, 4, [[1001], [1003]]⟩ 1000
      = some (some (.PortTakenError 1000), ⟨1000, 4, [[], []]⟩) ∧
    Remove ⟨1000, 4, [[], [1003]]⟩ 1000 = none := by
  decide

/-- C6: from `New(1000, 4, 2, ...)` the calls `Acquire(1)` and `Release(1002)`
reach a pool whose group 0 holds port 1002, outside its sub-range
`[1000, 1002)`. -/
theorem Release_breaks_group_membership :
    New 1000 4 2 [⟨0⟩, ⟨0⟩] = some (.ok ⟨1000, 4, [[1000, 1001], [1002, 1003]]⟩) ∧
    run ⟨1000, 4, [[1000, 1001], [1002, 1003]]⟩ [.Acquire 1, .Release 1002]
      = some ⟨1000, 4, [[1000, 1001, 1002], [1003]]⟩ ∧
    ¬ (1002 < 1000 + (0 + 1) * (4 / 2)) := by
  decide

/-- C10: on a pool of two groups `Acquire(0)` succeeds, while `Acquire(2)`
and `Acquire(-1)` fault instead of falling back to group 0; the fallback is
taken from index 3 on. -/
theorem Acquire_index_out_of_range :
    Acquire ⟨1000, 4, [[1000, 1001], [1002, 1003]]⟩ 0
      = some ((1000, none), ⟨1000, 4, [[1001], [1002, 1003]]⟩) ∧
    Acquire ⟨1000, 4, [[1000, 1001], [1002, 1003]]⟩ 2 = none ∧
    Acquire ⟨1000, 4, [[1000, 1001], [1002, 1003]]⟩ (-1) = none ∧
    Acquire ⟨1000, 4, [[1000, 1001], [1002, 1003]]⟩ 3
      = some ((1000, none), ⟨1000, 4, [[1001], [1002, 1003]]⟩) := by
  decide

/-- C4 (as stated): group 0 of the pool `[[0, 1]]` is not empty, yet
`Acquire(0)` returns `PoolExhaustedError` and pops the head. -/
theorem Acquire_head_zero_reports_exhausted :
    Acquire ⟨0, 2, [[0, 1]]⟩ 0 = some ((0, some .PoolExhaustedError), ⟨0, 2, [[1]]⟩) := by
  decide

/-- C8 (as stated): `New(1000, 4, 3, ...)` returns a pool of three groups of
one port each although 4 is not a multiple of 3. -/
theorem New_accepts_uneven_groups :
    ¬ (3 ∣ 4) ∧
    New 1000 4 3 [⟨0⟩, ⟨0⟩, ⟨0⟩] = some (.ok ⟨1000, 4, [[1000], [1001], [1002]]⟩) := by
  decide

/-! ## `Acquire` on a valid index, `New` on an invalid range -/

theorem toU32_natCast (g : Nat) (h : g < 4294967296) : toU32 (g : Int) = g := by
  unfold toU32
  omega

theorem Acquire_index_eq (p : PortPool) (g : Nat) (hlen : p.pools.length < 4294967296)
    (hg : g < p.pools.length) :
    (if (g : Int) > (p.pools.length : Int) then 0 else toU32 (g : Int)) = g := by
  rw [if_neg (by omega), toU32_natCast g (by omega)]

/-- C4 (amended): for a valid group index `g`, if group `g` is `h :: t` with
`h ≠ 0` then `Acquire(g)` returns `h` with no error, group `g` becomes `t` and
no other group changes; if group `g` is empty it returns `PoolExhaustedError`
and the pool is unchanged; and `PoolExhaustedError` is returned exactly when
group `g` is empty or its head is port 0. -/
theorem Acquire_valid_index (p : PortPool) (g : Nat) (hlen : p.pools.length < 4294967296)
    (hg : g < p.pools.length) :
    (∀ h t, p.pools[g]? = some (h :: t) → h ≠ 0 →
      Acquire p g = some ((h, none), { p with pools := p.pools.set g t })) ∧
    (p.pools[g]? = some [] → Acquire p g = some ((0, some .PoolExhaustedError), p)) ∧
    (∃ r p', Acquire p g = some (r, p') ∧
      (r.2 = some .PoolExhaustedError ↔
        (p.pools[g]? = some [] ∨ ∃ t, p.pools[g]? = some (0 :: t)))) := by
  have hi := Acquire_index_eq p g hlen hg
  refine ⟨?_, ?_, ?_⟩
  · intro h t hpool hne
    simp only [Acquire, hi, hpool, acquire, if_neg hne]
  · intro hpool
    simp only [Acquire, hi, hpool, acquire, if_true]
    have : p.pools.set g [] = p.pools := by
      apply List.ext_getElem?
      intro j
      by_cases hj : g = j
      · subst hj; simp [List.getElem?_set, hg, hpool]
      · simp [List.getElem?_set, hj]
    rw [this]
  · have hsome : ∃ pool, p.pools[g]? = some pool := ⟨p.pools[g], List.getElem?_eq_getElem hg⟩
    obtain ⟨pool, hpool⟩ := hsome
    cases pool with
    | nil =>
      refine ⟨_, _, by simp only [Acquire, hi, hpool, acquire, if_true]; rfl, ?_⟩
      simp [hpool]
    | cons h t =>
      by_cases h0 : h = 0
      · subst h0
        refine ⟨_, _, by simp only [Acquire, hi, hpool, acquire, if_true]; rfl, ?_⟩
        simp [hpool]
      · refine ⟨_, _, by simp only [Acquire, hi, hpool, acquire, if_neg h0]; rfl, ?_⟩
        simp [hpool, h0]

/-- Witness of C4 (amended) on the pool `[[1000, 1001], []]`. -/
theorem Acquire_valid_index_witness :
    Acquire ⟨1000, 4, [[1000, 1001], []]⟩ (0 : Nat)
      = some ((1000, none), ⟨1000, 4, [[1001], []]⟩) :=
  (Acquire_valid_index ⟨1000, 4, [[1000, 1001], []]⟩ 0 (by decide) (by decide)).1
    1000 [1001] rfl (by decide)

/-- C8 (amended): whenever `start + size` exceeds 65535 and fits 32 bits, `New`
returns the invalid-port-range error and no pool, whatever `groups` and
`states` are. -/
theorem New_invalid_range (start size groups : Nat) (states : States)
    (h : 65535 < start + size) (h32 : start + size < 4294967296) :
    New start size groups states = some (.error (.InvalidPortRange start size)) := by
  unfold New
  have : u32 (start + size) = start + size := Nat.mod_eq_of_lt h32
  rw [this, if_pos h]

/-- Witness of C8 (amended) at `New(65000, 1000, 2, [])`. -/
theorem New_invalid_range_witness :
    New 65000 1000 2 [] = some (.error (.InvalidPortRange 65000 1000)) :=
  New_invalid_range 65000 1000 2 [] (by decide) (by decide)

/-! ## What `fill` and `New` build; consecutive `Acquire` calls -/

theorem writeLoop_spec : ∀ (n port i : Nat) (pool : List Nat), i + n ≤ pool.length →
    writeLoop n port i pool
      = some (pool.take i ++ List.range' port n ++ pool.drop (i + n), i + n) := by
  intro n
  induction n with
  | zero =>
    intro port i pool _
    simp [writeLoop]
  | succ n ih =>
    intro port i pool h
    have hi : i < pool.length := by omega
    rw [writeLoop, if_pos hi, ih (port + 1) (i + 1) (pool.set i port) (by simp; omega)]
    have h1 : (pool.set i port).take (i + 1) = pool.take i ++ [port] := by
      rw [List.set_eq_take_append_cons_drop, if_pos hi]
      rw [List.take_append_eq_append_take]
      simp [List.take_take, List.length_take, Nat.min_eq_left (Nat.le_of_lt hi)]
    have h2 : (pool.set i port).drop (i + 1 + n) = pool.drop (i + (n + 1)) := by
      rw [List.drop_set, if_pos (by omega)]
      congr 1
      omega
    rw [h1, h2]
    simp [List.range'_succ, Nat.add_assoc]
    omega


theorem normOffset_le (size : Nat) (state : State) : normOffset size state ≤ size := by
  unfold normOffset
  split <;> omega

theorem fill_spec (start size : Nat) (state : State) (h : start + size < 4294967296) :
    fill start size state = some (rotation start size state) := by
  have ho := normOffset_le size state
  unfold fill rotation
  simp only []
  change (match writeLoop (u32 (start + size) - u32 (start + normOffset size state))
      (u32 (start + normOffset size state)) 0 (List.replicate size 0) with
    | none => none
    | some (pool, i) =>
      match writeLoop (u32 (start + normOffset size state) - start) start i pool with
      | none => none
      | some (pool, _) => some pool) = _
  generalize normOffset size state = o at ho
  have e1 : u32 (start + size) = start + size := Nat.mod_eq_of_lt h
  have e2 : u32 (start + o) = start + o := Nat.mod_eq_of_lt (by omega)
  rw [e1, e2]
  have d1 : start + size - (start + o) = size - o := by omega
  have d2 : start + o - start = o := by omega
  rw [d1, d2, writeLoop_spec _ _ _ _ (by simp)]
  simp only [List.take_zero, List.nil_append, Nat.zero_add]
  rw [writeLoop_spec _ _ _ _ (by simp; omega)]
  simp only [List.drop_replicate]
  have d3 : size - o + o = size := by omega
  simp [d3, List.take_append_eq_append_take, List.drop_append_eq_append_drop]


theorem newLoop_spec (start step : Nat) (states : States) : ∀ (is : List Nat),
    (∀ i ∈ is, i < states.length ∧ i < 4294967296 ∧ start + step * (i + 1) < 4294967296) →
    newLoop start step states is
      = some (is.map (fun i => rotation (start + step * i) step (states.getD i ⟨0⟩))) := by
  intro is
  induction is with
  | nil => intro _; rfl
  | cons i rest ih =>
    intro h
    obtain ⟨h1, h2, h3⟩ := h i (List.mem_cons_self _ _)
    have hrest := ih (fun j hj => h j (List.mem_cons_of_mem _ hj))
    have hmul : step * (i + 1) = step * i + step := by ring
    have e1 : u32 i = i := Nat.mod_eq_of_lt h2
    have e2 : u32 (step * i) = step * i := Nat.mod_eq_of_lt (by omega)
    have e3 : u32 (start + step * i) = start + step * i := Nat.mod_eq_of_lt (by omega)
    have hs : states[i]? = some (states.getD i ⟨0⟩) := by
      simp [List.getD, List.getElem?_eq_getElem h1]
    rw [newLoop, hs]
    simp only [e1, e2, e3]
    rw [fill_spec _ _ _ (by omega), hrest]
    simp

theorem New_spec (start size groups : Nat) (states : States)
    (hrange : start + size ≤ 65535) (hG : 1 ≤ groups) (hG32 : groups < 4294967296)
    (hstates : groups ≤ states.length) :
    New start size groups states
      = some (.ok ⟨start, size, freshPools start size groups states⟩) := by
  have e1 : u32 (start + size) = start + size := Nat.mod_eq_of_lt (by omega)
  unfold New
  rw [e1, if_neg (by omega), if_neg (by omega), newLoop_spec]
  · rfl
  · intro i hi
    have hi' : i < groups := List.mem_range.mp hi
    refine ⟨by omega, by omega, ?_⟩
    have : size / groups * (i + 1) ≤ size / groups * groups := Nat.mul_le_mul_left _ hi'
    have := Nat.div_mul_le_self size groups
    omega


theorem Acquire_of_group (p : PortPool) (g : Nat) (pool : List Nat)
    (hlen : p.pools.length < 4294967296) (hg : g < p.pools.length)
    (hpool : p.pools[g]? = some pool) :
    Acquire p g = some (if (acquire pool).1 = 0 then (0, some .PoolExhaustedError)
      else ((acquire pool).1, none), { p with pools := p.pools.set g (acquire pool).2 }) := by
  have hi := Acquire_index_eq p g hlen hg
  simp only [Acquire, hi, hpool]
  split <;> rfl

theorem Acquire_cons (p : PortPool) (g h : Nat) (t : List Nat)
    (hlen : p.pools.length < 4294967296) (hg : g < p.pools.length)
    (hpool : p.pools[g]? = some (h :: t)) (hne : h ≠ 0) :
    Acquire p g = some ((h, none), { p with pools := p.pools.set g t }) := by
  rw [Acquire_of_group p g _ hlen hg hpool]
  simp [acquire, hne]

theorem acquireN_take (g : Nat) : ∀ (n : Nat) (p : PortPool) (l : List Nat),
    p.pools.length < 4294967296 → g < p.pools.length → p.pools[g]? = some l →
    n ≤ l.length → (∀ x ∈ l.take n, x ≠ 0) →
    acquireN p g n = some ((l.take n).map (fun x => (x, none)),
      { p with pools := p.pools.set g (l.drop n) }) := by
  intro n
  induction n with
  | zero =>
    intro p l _ hg hpool _ _
    have : p.pools.set g l = p.pools := by
      apply List.ext_getElem?
      intro j
      by_cases hj : g = j
      · subst hj; simp [List.getElem?_set, hg, hpool]
      · simp [List.getElem?_set, hj]
    simp [acquireN, this]
  | succ n ih =>
    intro p l hlen hg hpool hn hnz
    cases l with
    | nil => simp at hn
    | cons h t =>
      have hne : h ≠ 0 := hnz h (by simp)
      rw [acquireN, Acquire_cons p g h t hlen hg hpool hne]
      simp only []
      rw [ih { p with pools := p.pools.set g t } t (by simpa using hlen) (by simpa using hg)
        (by simp [List.getElem?_set, hg]) (by simpa using hn)
        (fun x hx => hnz x (by simp [List.take_succ_cons, hx]))]
      simp


theorem rotation_length (start size : Nat) (state : State) :
    (rotation start size state).length = size := by
  have := normOffset_le size state
  simp [rotation]
  omega

theorem mem_rotation (start size : Nat) (state : State) (x : Nat) :
    x ∈ rotation start size state ↔ start ≤ x ∧ x < start + size := by
  have := normOffset_le size state
  simp only [rotation, List.mem_append, List.mem_range'_1]
  omega

theorem rotation_nodup (start size : Nat) (state : State) :
    (rotation start size state).Nodup := by
  rw [rotation, List.nodup_append]
  refine ⟨List.nodup_range' _ _, List.nodup_range' _ _, ?_⟩
  intro x h1 h2
  simp only [List.mem_range'_1] at h1 h2
  omega

theorem freshPools_length (start size groups : Nat) (states : States) :
    (freshPools start size groups states).length = groups := by
  simp [freshPools]

theorem freshPools_getElem? (start size groups : Nat) (states : States) (g : Nat)
    (hg : g < groups) :
    (freshPools start size groups states)[g]?
      = some (rotation (start + size / groups * g) (size / groups) (states.getD g ⟨0⟩)) := by
  simp [freshPools, List.getElem?_map, List.getElem?_range hg]

/-- C5 (amended): for `start ≥ 1` and `start + size ≤ 65535`, on the pool built by
`New` the first `N = size / groups` calls `Acquire(g)` all succeed and return
`N` pairwise distinct ports, and the next call returns `PoolExhaustedError`. -/
theorem New_acquire_all (start size groups : Nat) (states : States) (g : Nat)
    (hstart : 1 ≤ start) (hrange : start + size ≤ 65535) (hG : 1 ≤ groups)
    (hG32 : groups < 4294967296) (_hdiv : groups ∣ size) (hstates : states.length = groups)
    (hg : g < groups) :
    ∃ (P : PortPool) (ports : List Nat) (P' P'' : PortPool),
      New start size groups states = some (.ok P) ∧
      acquireN P g (size / groups) = some (ports.map (fun x => (x, none)), P') ∧
      ports.length = size / groups ∧ ports.Nodup ∧
      Acquire P' g = some ((0, some .PoolExhaustedError), P'') := by
  have hnew := New_spec start size groups states hrange hG hG32 (by omega)
  have hlen := freshPools_length start size groups states
  have hget := freshPools_getElem? start size groups states g hg
  generalize hrot : rotation (start + size / groups * g) (size / groups) (states.getD g ⟨0⟩)
    = rot at hget
  have hrl : rot.length = size / groups := by rw [← hrot, rotation_length]
  have hnz : ∀ x ∈ rot, x ≠ 0 := by
    intro x hx
    rw [← hrot, mem_rotation] at hx
    omega
  have hrun := acquireN_take g (size / groups) ⟨start, size, freshPools start size groups states⟩
    rot (by simpa [hlen] using hG32) (by simpa [hlen] using hg) hget (by omega)
    (fun x hx => hnz x (List.mem_of_mem_take hx))
  have htake : rot.take (size / groups) = rot := by rw [← hrl, List.take_length]
  have hdrop : rot.drop (size / groups) = [] := by rw [← hrl, List.drop_length]
  rw [htake, hdrop] at hrun
  refine ⟨_, rot, _, ⟨start, size, ((freshPools start size groups states).set g []).set g []⟩,
    hnew, hrun, hrl, ?_, ?_⟩
  · rw [← hrot]; exact rotation_nodup _ _ _
  · rw [Acquire_of_group _ g [] (by simpa [hlen] using hG32) (by simpa [hlen] using hg)
      (by simp [List.getElem?_set, hlen, hg])]
    simp [acquire]

/-- Witness of C5 (amended) at `New(1000, 4, 2, [{0}, {1}])`, group 1. -/
theorem New_acquire_all_witness :
    ∃ (P : PortPool) (ports : List Nat) (P' P'' : PortPool),
      New 1000 4 2 [⟨0⟩, ⟨1⟩] = some (.ok P) ∧
      acquireN P (1 : Nat) (4 / 2) = some (ports.map (fun x => (x, none)), P') ∧
      ports.length = 4 / 2 ∧ ports.Nodup ∧
      Acquire P' (1 : Nat) = some ((0, some .PoolExhaustedError), P'') :=
  New_acquire_all 1000 4 2 [⟨0⟩, ⟨1⟩] 1 (by decide) (by decide) (by decide) (by decide)
    (by decide) (by decide) (by decide)

/-- C5 (as stated): `New(0, 2, 1, [{0}])` is accepted and builds the group
`[0, 1]` of size 2, yet the first `Acquire(0)` already returns `PoolExhaustedError`. -/
theorem New_start_zero_first_acquire_fails :
    New 0 2 1 [⟨0⟩] = some (.ok ⟨0, 2, [[0, 1]]⟩) ∧
    acquireN ⟨0, 2, [[0, 1]]⟩ 0 (2 / 1)
      = some ([(0, some .PoolExhaustedError), (1, none)], ⟨0, 2, [[]]⟩) := by
  decide

/-! ## No port is available twice -/

theorem freshPools_nodup (start size groups : Nat) (states : States) :
    (freshPools start size groups states).flatten.Nodup := by
  rw [List.nodup_flatten]
  constructor
  · intro l hl
    simp only [freshPools, List.mem_map] at hl
    obtain ⟨i, _, rfl⟩ := hl
    exact rotation_nodup _ _ _
  · rw [freshPools, List.pairwise_map]
    refine (List.pairwise_lt_range groups).imp ?_
    intro i j hij x hx hy
    rw [mem_rotation] at hx hy
    have : size / groups * (i + 1) ≤ size / groups * j := Nat.mul_le_mul_left _ hij
    have : size / groups * (i + 1) = size / groups * i + size / groups := by ring
    omega

theorem set_flatten_sublist : ∀ (L : List (List Nat)) (i : Nat) (l l' : List Nat),
    L[i]? = some l → List.Sublist l' l → List.Sublist (L.set i l').flatten L.flatten := by
  intro L
  induction L with
  | nil => intro i l l' h; simp at h
  | cons a rest ih =>
    intro i l l' h hsub
    cases i with
    | zero =>
      simp at h
      subst h
      simp only [List.set_cons_zero, List.flatten_cons]
      exact hsub.append (List.Sublist.refl _)
    | succ i =>
      simp at h
      simp only [List.set_cons_succ, List.flatten_cons]
      exact (List.Sublist.refl _).append (ih i l l' h hsub)

theorem acquire_sublist (pool : List Nat) : List.Sublist (acquire pool).2 pool := by
  cases pool with
  | nil => exact List.Sublist.refl _
  | cons h t => exact List.sublist_cons_self h t

theorem Acquire_sublist (p p' : PortPool) (index : Int) (r : Nat × Option Error)
    (h : Acquire p index = some (r, p')) : List.Sublist p'.pools.flatten p.pools.flatten := by
  unfold Acquire at h
  simp only [] at h
  split at h
  · simp at h
  · rename_i pool hpool
    split at h <;>
    · simp only [Option.some.injEq, Prod.mk.injEq] at h
      rw [← h.2]
      exact set_flatten_sublist _ _ _ _ hpool (acquire_sublist pool)

theorem removeLoop_sublist (port : Nat) : ∀ (L : List (List Nat)) (idx : Nat) (found : Bool)
    (L' : List (List Nat)) (f : Bool),
    removeLoop port L idx found = some (L', f) → List.Sublist L'.flatten L.flatten := by
  intro L
  induction L with
  | nil =>
    intro idx found L' f h
    simp [removeLoop] at h
    rw [← h.1]
  | cons pool rest ih =>
    intro idx found L' f h
    rw [removeLoop] at h
    split at h
    · split at h
      · simp at h
      · rename_i pools f' hrest
        simp only [Option.some.injEq, Prod.mk.injEq] at h
        rw [← h.1, List.flatten_cons, List.flatten_cons, ← List.eraseIdx_eq_take_drop_succ]
        exact (List.eraseIdx_sublist _ _).append (ih _ _ _ _ hrest)
    · simp at h

theorem Remove_sublist (p p' : PortPool) (port : Nat) (e : Option Error)
    (h : Remove p port = some (e, p')) : List.Sublist p'.pools.flatten p.pools.flatten := by
  unfold Remove at h
  split at h
  · simp at h
  · rename_i pools found hloop
    split at h <;>
    · simp only [Option.some.injEq, Prod.mk.injEq] at h
      rw [← h.2]
      exact removeLoop_sublist _ _ _ _ _ _ hloop


theorem modify_append_flatten (port : Nat) : ∀ (L : List (List Nat)) (i : Nat),
    L.modify (fun pool => pool ++ [port]) i = L ∨
    (L.modify (fun pool => pool ++ [port]) i).flatten.Perm (port :: L.flatten) := by
  intro L
  induction L with
  | nil => intro i; left; cases i <;> rfl
  | cons a rest ih =>
    intro i
    cases i with
    | zero =>
      right
      show ((a ++ [port]) :: rest).flatten.Perm (port :: (a :: rest).flatten)
      simp only [List.flatten_cons, List.append_assoc, List.singleton_append]
      exact List.perm_middle
    | succ i =>
      have hm : List.modify (fun pool => pool ++ [port]) (i + 1) (a :: rest)
          = a :: List.modify (fun pool => pool ++ [port]) i rest := rfl
      rw [hm]
      rcases ih i with h | h
      · left
        rw [h]
      · right
        simp only [List.flatten_cons]
        exact (List.Perm.append_left a h).trans List.perm_middle

theorem releaseLoop_pools (p : PortPool) (port : Nat) : ∀ (n i : Nat),
    (releaseLoop p port n i).pools = p.pools ∨
    (releaseLoop p port n i).pools.flatten.Perm (port :: p.pools.flatten) := by
  intro n
  induction n with
  | zero => intro i; left; rfl
  | succ n ih =>
    intro i
    rw [releaseLoop]
    split
    · exact modify_append_flatten port p.pools i
    · exact ih (i + 1)

theorem Release_pools (p : PortPool) (port : Nat) :
    (Release p port).pools = p.pools ∨
    (port ∉ p.pools.flatten ∧ (Release p port).pools.flatten.Perm (port :: p.pools.flatten)) := by
  unfold Release
  split
  · left; rfl
  · split
    · left; rfl
    · rename_i hany
      have hnot : port ∉ p.pools.flatten := by
        intro hmem
        apply hany
        rw [List.mem_flatten] at hmem
        obtain ⟨l, hl, hx⟩ := hmem
        simp only [List.any_eq_true, beq_iff_eq]
        exact ⟨l, hl, port, hx, rfl⟩
      rcases releaseLoop_pools p port p.pools.length 0 with h | h
      · left; exact h
      · right; exact ⟨hnot, h⟩

theorem step_nodup (p p' : PortPool) (op : Op) (h : step p op = some p')
    (hnd : p.pools.flatten.Nodup) : p'.pools.flatten.Nodup := by
  cases op with
  | Acquire index =>
    simp only [step, Option.map_eq_some'] at h
    obtain ⟨⟨r, q⟩, hq, rfl⟩ := h
    exact hnd.sublist (Acquire_sublist _ _ _ _ hq)
  | Release port =>
    simp only [step, Option.some.injEq] at h
    subst h
    rcases Release_pools p port with h | ⟨hnot, h⟩
    · rw [h]; exact hnd
    · exact h.nodup_iff.mpr (List.nodup_cons.mpr ⟨hnot, hnd⟩)
  | Remove port =>
    simp only [step, Option.map_eq_some'] at h
    obtain ⟨⟨e, q⟩, hq, rfl⟩ := h
    exact hnd.sublist (Remove_sublist _ _ _ _ hq)

theorem step_not_mem (p p' : PortPool) (op : Op) (x : Nat) (h : step p op = some p')
    (hop : op ≠ Op.Release x) (hx : x ∉ p.pools.flatten) : x ∉ p'.pools.flatten := by
  cases op with
  | Acquire index =>
    simp only [step, Option.map_eq_some'] at h
    obtain ⟨⟨r, q⟩, hq, rfl⟩ := h
    exact fun hm => hx ((Acquire_sublist _ _ _ _ hq).subset hm)
  | Release port =>
    simp only [step, Option.some.injEq] at h
    subst h
    rcases Release_pools p port with h | ⟨_, h⟩
    · rw [h]; exact hx
    · intro hm
      rcases List.mem_cons.mp (h.subset hm) with e | e
      · exact hop (by rw [e])
      · exact hx e
  | Remove port =>
    simp only [step, Option.map_eq_some'] at h
    obtain ⟨⟨e, q⟩, hq, rfl⟩ := h
    exact fun hm => hx ((Remove_sublist _ _ _ _ hq).subset hm)

theorem run_nodup : ∀ (ops : List Op) (p p' : PortPool), run p ops = some p' →
    p.pools.flatten.Nodup → p'.pools.flatten.Nodup := by
  intro ops
  induction ops with
  | nil => intro p p' h hnd; simp only [run, Option.some.injEq] at h; subst h; exact hnd
  | cons op ops ih =>
    intro p p' h hnd
    rw [run] at h
    split at h
    · simp at h
    · rename_i q hq
      exact ih q p' h (step_nodup p q op hq hnd)

theorem run_not_mem (x : Nat) : ∀ (ops : List Op) (p p' : PortPool), run p ops = some p' →
    Op.Release x ∉ ops → x ∉ p.pools.flatten → x ∉ p'.pools.flatten := by
  intro ops
  induction ops with
  | nil => intro p p' h _ hx; simp only [run, Option.some.injEq] at h; subst h; exact hx
  | cons op ops ih =>
    intro p p' h hops hx
    rw [run] at h
    split at h
    · simp at h
    · rename_i q hq
      exact ih q p' h (fun hm => hops (List.mem_cons_of_mem _ hm))
        (step_not_mem p q op x hq (fun e => hops (by rw [e]; exact List.mem_cons_self _ _)) hx)


theorem newLoop_some_lt (start step : Nat) (states : States) : ∀ (is pools),
    newLoop start step states is = some pools → ∀ i ∈ is, i < states.length := by
  intro is
  induction is with
  | nil => intro _ _ i hi; simp at hi
  | cons j rest ih =>
    intro pools h i hi
    rw [newLoop] at h
    split at h
    · simp at h
    · rename_i st hst
      split at h
      · simp at h
      · split at h
        · simp at h
        · rename_i pools' hrest
          rcases List.mem_cons.mp hi with e | e
          · subst e
            by_contra hge
            rw [List.getElem?_eq_none (by omega)] at hst
            simp at hst
          · exact ih pools' hrest i e

theorem New_ok_pools (start size groups : Nat) (states : States) (P : PortPool)
    (hrange : start + size ≤ 65535) (hG32 : groups < 4294967296)
    (hnew : New start size groups states = some (.ok P)) :
    P = ⟨start, size, freshPools start size groups states⟩ := by
  have hG : 1 ≤ groups := by
    by_contra h0
    have e0 : groups = 0 := by omega
    have e1 : u32 (start + size) = start + size := Nat.mod_eq_of_lt (by omega)
    simp [New, e0, e1] at hnew
  have hlen : groups ≤ states.length := by
    by_contra hlt
    have e1 : u32 (start + size) = start + size := Nat.mod_eq_of_lt (by omega)
    unfold New at hnew
    rw [e1, if_neg (by omega), if_neg (by omega)] at hnew
    split at hnew
    · simp at hnew
    · rename_i pools hloop
      have := newLoop_some_lt _ _ _ _ _ hloop states.length (List.mem_range.mpr (by omega))
      omega
  rw [New_spec start size groups states hrange hG hG32 hlen] at hnew
  simp only [Option.some.injEq, Except.ok.injEq] at hnew
  exact hnew.symm

theorem Acquire_success_head (p p' : PortPool) (index : Int) (x : Nat)
    (h : Acquire p index = some ((x, none), p')) :
    ∃ i t, p.pools[i]? = some (x :: t) ∧ p'.pools = p.pools.set i t := by
  unfold Acquire at h
  simp only [] at h
  split at h
  · simp at h
  · rename_i pool hpool
    split at h
    · simp at h
    · rename_i hne
      simp only [Option.some.injEq, Prod.mk.injEq, and_true] at h
      cases pool with
      | nil => simp [acquire] at hne
      | cons a t =>
        simp only [acquire] at h
        refine ⟨if index > (p.pools.length : Int) then 0 else toU32 index, t, ?_, ?_⟩
        · rw [hpool, h.1]
        · rw [← h.2]

theorem set_tail_not_mem (x : Nat) (t : List Nat) : ∀ (L : List (List Nat)) (i : Nat),
    L[i]? = some (x :: t) → L.flatten.Nodup → x ∉ (L.set i t).flatten := by
  intro L
  induction L with
  | nil => intro i h; simp at h
  | cons a rest ih =>
    intro i h hnd
    cases i with
    | zero =>
      simp at h
      subst h
      simp only [List.set_cons_zero, List.flatten_cons, List.cons_append,
        List.nodup_cons] at hnd ⊢
      exact hnd.1
    | succ i =>
      simp at h
      simp only [List.set_cons_succ, List.flatten_cons, List.mem_append, not_or]
      rw [List.flatten_cons, List.nodup_append] at hnd
      have hx : x ∈ rest.flatten :=
        List.mem_flatten.mpr ⟨x :: t, List.getElem?_mem h, List.mem_cons_self _ _⟩
      exact ⟨fun ha => hnd.2.2 ha hx, ih i h hnd.2.1⟩

/-- C7: in every pool reached from an accepted `New(start, size, groups, states)`
with `start + size ≤ 65535` by calls of `Acquire`, `Release` and `Remove` that
do not fault, no port occurs twice among the available sequences; and a port
returned by a successful `Acquire` is not returned by a later `Acquire` as
long as it has not been released in between. -/
theorem no_port_available_twice (start size groups : Nat) (states : States)
    (P p : PortPool) (ops : List Op)
    (hrange : start + size ≤ 65535) (hG32 : groups < 4294967296)
    (hnew : New start size groups states = some (.ok P))
    (hrun : run P ops = some p) :
    p.pools.flatten.Nodup ∧
    ∀ (index : Int) (port : Nat) (p1 : PortPool) (ops2 : List Op) (p2 : PortPool)
      (index2 : Int) (r : Nat × Option Error) (p3 : PortPool),
      Acquire p index = some ((port, none), p1) → Op.Release port ∉ ops2 →
      run p1 ops2 = some p2 → Acquire p2 index2 = some (r, p3) → r ≠ (port, none) := by
  have hP := New_ok_pools start size groups states P hrange hG32 hnew
  have hnd : p.pools.flatten.Nodup := by
    refine run_nodup ops P p hrun ?_
    rw [hP]
    exact freshPools_nodup start size groups states
  refine ⟨hnd, ?_⟩
  intro index port p1 ops2 p2 index2 r p3 hacq hops hrun2 hacq2 hr
  obtain ⟨i, t, hi, hset⟩ := Acquire_success_head p p1 index port hacq
  have h1 : port ∉ p1.pools.flatten := by
    rw [hset]
    exact set_tail_not_mem port t p.pools i hi hnd
  have h2 : port ∉ p2.pools.flatten := run_not_mem port ops2 p1 p2 hrun2 hops h1
  rw [hr] at hacq2
  obtain ⟨j, t2, hj, _⟩ := Acquire_success_head p2 p3 index2 port hacq2
  exact h2 (List.mem_flatten.mpr ⟨port :: t2, List.getElem?_mem hj, List.mem_cons_self _ _⟩)

/-- Witness of C7 on `New(1000, 4, 2, [{0}, {0}])` followed by `Acquire(1)`,
`Release(1002)` and `Remove(1000)`. -/
theorem no_port_available_twice_witness :
    (PortPool.mk 1000 4 [[1001, 1002], []]).pools.flatten.Nodup ∧
    ∀ (index : Int) (port : Nat) (p1 : PortPool) (ops2 : List Op) (p2 : PortPool)
      (index2 : Int) (r : Nat × Option Error) (p3 : PortPool),
      Acquire ⟨1000, 4, [[1001, 1002], []]⟩ index = some ((port, none), p1) →
      Op.Release port ∉ ops2 →
      run p1 ops2 = some p2 → Acquire p2 index2 = some (r, p3) → r ≠ (port, none) :=
  no_port_available_twice 1000 4 2 [⟨0⟩, ⟨0⟩] ⟨1000, 4, [[1000, 1001], [1002, 1003]]⟩
    ⟨1000, 4, [[1001, 1002], []]⟩ [.Acquire 1, .Release 1002, .Remove 1000]
    (by decide) (by decide) (by decide) (by decide)

/-! ## Persisting the rotation state and rebuilding the pool -/

theorem acquireN_ok (g : Nat) : ∀ (k : Nat) (p : PortPool) (l : List Nat)
    (results : List (Nat × Option Error)) (pk : PortPool),
    p.pools.length < 4294967296 → g < p.pools.length → p.pools[g]? = some l →
    k ≤ l.length → acquireN p g k = some (results, pk) → (∀ r ∈ results, r.2 = none) →
    results = (l.take k).map (fun x => (x, none)) ∧
      pk = { p with pools := p.pools.set g (l.drop k) } := by
  intro k
  induction k with
  | zero =>
    intro p l results pk _ hg hpool _ h _
    simp only [acquireN, Option.some.injEq, Prod.mk.injEq] at h
    have : p.pools.set g l = p.pools := by
      apply List.ext_getElem?
      intro j
      by_cases hj : g = j
      · subst hj; simp [List.getElem?_set, hg, hpool]
      · simp [List.getElem?_set, hj]
    simp [← h.1, ← h.2, this]
  | succ k ih =>
    intro p l results pk hlen hg hpool hk h hok
    cases l with
    | nil => simp at hk
    | cons a t =>
      rw [acquireN, Acquire_of_group p g _ hlen hg hpool] at h
      simp only [acquire] at h
      split at h
      · simp at h
      · rename_i rs p'' hrest
        simp only [Option.some.injEq, Prod.mk.injEq] at h
        have hne : a ≠ 0 := by
          intro h0
          have := hok _ (by rw [← h.1]; exact List.mem_cons_self _ _)
          simp [h0] at this
        obtain ⟨e1, e2⟩ := ih { p with pools := p.pools.set g t } t rs p''
          (by simpa using hlen) (by simpa using hg) (by simp [List.getElem?_set, hg])
          (by simpa using hk) hrest
          (fun r hr => hok r (by rw [← h.1]; exact List.mem_cons_of_mem _ hr))
        constructor
        · rw [← h.1, e1]; simp [hne]
        · rw [← h.2, e2]; simp

theorem refreshLoop_length (p : PortPool) : ∀ (L : List (List Nat)) (i : Nat),
    (refreshLoop p L i).length = L.length := by
  intro L
  induction L with
  | nil => intro i; rfl
  | cons a rest ih => intro i; simp [refreshLoop, ih]

theorem refreshLoop_getElem? (p : PortPool) : ∀ (L : List (List Nat)) (i j head : Nat)
    (tl : List Nat), L[j]? = some (head :: tl) →
    (refreshLoop p L i)[j]? = some
      (if sub32 (sub32 head p.start) (u32 (u32 (i + j) * p.size) / u32 p.pools.length) > p.size
        then ⟨0⟩
        else ⟨sub32 (sub32 head p.start) (u32 (u32 (i + j) * p.size) / u32 p.pools.length)⟩) := by
  intro L
  induction L with
  | nil => intro i j head tl h; simp at h
  | cons a rest ih =>
    intro i j head tl h
    cases j with
    | zero =>
      simp at h
      subst h
      simp only [refreshLoop, List.getElem?_cons_zero, Nat.add_zero]
    | succ j =>
      simp at h
      have := ih (i + 1) j head tl h
      simp only [refreshLoop, List.getElem?_cons_succ]
      rw [this]
      have e : i + 1 + j = i + (j + 1) := by omega
      rw [e]

theorem getElem_not_mem_take (l : List Nat) (k : Nat) (hk : k < l.length) (hnd : l.Nodup) :
    l[k] ∉ l.take k := by
  intro hmem
  rw [← List.take_append_drop k l, List.nodup_append] at hnd
  have : l[k] ∈ l.drop k := by
    rw [List.drop_eq_getElem_cons hk]
    exact List.mem_cons_self _ _
  exact hnd.2.2 hmem this

theorem rotation_head (start size o : Nat) (ho : o < size) :
    ∃ t, rotation start size ⟨o⟩ = (start + o) :: t := by
  have hn : normOffset size ⟨o⟩ = o := by simp [normOffset]; omega
  rw [rotation, hn]
  obtain ⟨m, hm⟩ : ∃ m, size - o = m + 1 := ⟨size - o - 1, by omega⟩
  rw [hm, List.range'_succ]
  exact ⟨_, rfl⟩


/-- C9: after `k < N` successful `Acquire(g)` calls on the pool built by
`New(start, size, groups, states)`, the pool rebuilt by `New` from
`RefreshState()` exists, and the port its first `Acquire(g)` returns is none of
the `k` ports acquired before. -/
theorem refresh_rebuild_continuity (start size groups : Nat) (states : States)
    (g k : Nat) (P Pk : PortPool) (results : List (Nat × Option Error))
    (hrange : start + size ≤ 65535) (hG : 1 ≤ groups) (hG32 : groups < 4294967296)
    (hdiv : groups ∣ size) (hstates : states.length = groups) (hg : g < groups)
    (hk : k < size / groups)
    (hnew : New start size groups states = some (.ok P))
    (hacq : acquireN P g k = some (results, Pk))
    (hok : ∀ r ∈ results, r.2 = none) :
    ∃ (P' : PortPool) (r : Nat × Option Error) (P'' : PortPool),
      New start size groups (RefreshState Pk) = some (.ok P') ∧
      Acquire P' g = some (r, P'') ∧
      r.1 ∉ results.map (fun x => x.1) := by
  have hP := New_ok_pools start size groups states P hrange hG32 hnew
  subst hP
  have hlen := freshPools_length start size groups states
  have hget := freshPools_getElem? start size groups states g hg
  generalize hrot : rotation (start + size / groups * g) (size / groups) (states.getD g ⟨0⟩)
    = rot at hget
  have hrl : rot.length = size / groups := by rw [← hrot, rotation_length]
  have hnd : rot.Nodup := by rw [← hrot]; exact rotation_nodup _ _ _
  have hkl : k < rot.length := by omega
  obtain ⟨hres, hPk⟩ := acquireN_ok g k ⟨start, size, freshPools start size groups states⟩ rot
    results Pk (by simpa [hlen] using hG32) (by simpa [hlen] using hg) hget (by omega) hacq hok
  have hmemAll : ∀ x, x ∈ rot → start + size / groups * g ≤ x ∧
      x < start + size / groups * g + size / groups := by
    intro x hx
    rw [← hrot, mem_rotation] at hx
    exact hx
  have hnotin : rot[k] ∉ rot.take k := getElem_not_mem_take rot k hkl hnd
  have hdropk : rot.drop k = rot[k] :: rot.drop (k + 1) := List.drop_eq_getElem_cons hkl
  have hmem := hmemAll _ (List.getElem_mem hkl)
  generalize rot[k] = h at hmem hnotin hdropk
  -- the arithmetic of `RefreshState` on group `g`
  have hsz : groups ≤ size := by
    by_contra hlt
    have : size / groups = 0 := Nat.div_eq_of_lt (by omega)
    omega
  have hmul : g * size ≤ 65535 * 65535 := Nat.mul_le_mul (by omega) (by omega)
  have hdivg : g * size / groups = size / groups * g := by
    rw [Nat.mul_div_assoc g hdiv, Nat.mul_comm]
  have hNg : size / groups * (g + 1) ≤ size / groups * groups := Nat.mul_le_mul_left _ hg
  have hNG : size / groups * groups ≤ size := Nat.div_mul_le_self size groups
  have hNg' : size / groups * (g + 1) = size / groups * g + size / groups := by ring
  have hoff : sub32 (sub32 h start) (u32 (u32 (0 + g) * size) / u32 groups)
      = h - (start + size / groups * g) := by
    have e1 : u32 (0 + g) = g := by unfold u32; omega
    have e2 : u32 (g * size) = g * size := by unfold u32; omega
    have e3 : u32 groups = groups := by unfold u32; omega
    rw [e1, e2, e3, hdivg]
    unfold sub32
    omega
  -- the saved state of group `g`
  have hPkpools : Pk.pools = (freshPools start size groups states).set g (rot.drop k) := by
    rw [hPk]
  have hPklen : Pk.pools.length = groups := by rw [hPkpools, List.length_set, hlen]
  have hPkg : Pk.pools[g]? = some (h :: rot.drop (k + 1)) := by
    rw [hPkpools, hdropk]
    simp [List.getElem?_set, hlen, hg]
  have hPkstart : Pk.start = start := by rw [hPk]
  have hPksize : Pk.size = size := by rw [hPk]
  have hstate : (RefreshState Pk)[g]? = some ⟨h - (start + size / groups * g)⟩ := by
    rw [RefreshState, refreshLoop_getElem? Pk Pk.pools 0 g h _ hPkg, hPkstart, hPksize, hPklen,
      hoff, if_neg (by omega)]
  have hrlen : (RefreshState Pk).length = groups := by
    rw [RefreshState, refreshLoop_length, hPklen]
  -- the rebuilt pool
  have hnew' := New_spec start size groups (RefreshState Pk) hrange hG hG32 (by omega)
  have hlen' := freshPools_length start size groups (RefreshState Pk)
  have hget' := freshPools_getElem? start size groups (RefreshState Pk) g hg
  have hgetD : (RefreshState Pk).getD g ⟨0⟩ = ⟨h - (start + size / groups * g)⟩ := by
    simp [List.getD, hstate]
  obtain ⟨t, ht⟩ := rotation_head (start + size / groups * g) (size / groups)
    (h - (start + size / groups * g)) (by omega)
  have hhead : start + size / groups * g + (h - (start + size / groups * g)) = h := by omega
  rw [hgetD, ht, hhead] at hget'
  have hacq' := Acquire_of_group ⟨start, size, freshPools start size groups (RefreshState Pk)⟩ g
    (h :: t) (by simpa [hlen'] using hG32) (by simpa [hlen'] using hg) hget'
  refine ⟨_, _, _, hnew', hacq', ?_⟩
  have hfst : (results.map (fun x => x.1)) = rot.take k := by
    rw [hres, List.map_map]
    have hid : ((fun x : Nat × Option Error => x.1) ∘ fun x : Nat => (x, (none : Option Error)))
        = id := rfl
    rw [hid, List.map_id]
  rw [hfst]
  simp only [acquire]
  split
  · rename_i h0
    rw [← h0]
    exact hnotin
  · exact hnotin

/-- Witness of C9 at `New(1000, 4, 2, [{0}, {1}])`, group 1, after one `Acquire(1)`. -/
theorem refresh_rebuild_continuity_witness :
    ∃ (P' : PortPool) (r : Nat × Option Error) (P'' : PortPool),
      New 1000 4 2 (RefreshState ⟨1000, 4, [[1000, 1001], [1002]]⟩) = some (.ok P') ∧
      Acquire P' (1 : Nat) = some (r, P'') ∧
      r.1 ∉ [((1003 : Nat), (none : Option Error))].map (fun x => x.1) :=
  refresh_rebuild_continuity 1000 4 2 [⟨0⟩, ⟨1⟩] 1 1 ⟨1000, 4, [[1000, 1001], [1003, 1002]]⟩
    ⟨1000, 4, [[1000, 1001], [1002]]⟩ [(1003, none)]
    (by decide) (by decide) (by decide) (by decide) (by decide) (by decide) (by decide)
    (by decide) (by decide) (by decide)

/-! ## The groups `New` builds; `Release` twice -/

/-- C11: for accepted parameters `New` builds group `i` as the rotation of its
sub-range that starts at the saved offset; and on `New(1000, 100, 2, ...)` with
offsets 0 group 0 is `1000..1049`, group 1 is `1050..1099`, the first
`Acquire(0)` returns 1000 and, after `Release(1000)`, the next returns 1001. -/
theorem New_builds_rotations (start size groups : Nat) (states : States)
    (hrange : start + size ≤ 65535) (hG : 1 ≤ groups) (hG32 : groups < 4294967296)
    (_hdiv : groups ∣ size) (hstates : states.length = groups) :
    New start size groups states = some (.ok ⟨start, size, (List.range groups).map (fun i =>
      List.range' (start + i * (size / groups)
          + (if (states.getD i ⟨0⟩).Offset ≥ size / groups then 0
              else (states.getD i ⟨0⟩).Offset))
        (size / groups - (if (states.getD i ⟨0⟩).Offset ≥ size / groups then 0
              else (states.getD i ⟨0⟩).Offset))
      ++ List.range' (start + i * (size / groups))
        (if (states.getD i ⟨0⟩).Offset ≥ size / groups then 0
              else (states.getD i ⟨0⟩).Offset))⟩) ∧
    New 1000 100 2 [⟨0⟩, ⟨0⟩]
      = some (.ok ⟨1000, 100, [List.range' 1000 50, List.range' 1050 50]⟩) ∧
    Acquire ⟨1000, 100, [List.range' 1000 50, List.range' 1050 50]⟩ 0
      = some ((1000, none), ⟨1000, 100, [List.range' 1001 49, List.range' 1050 50]⟩) ∧
    Acquire (Release ⟨1000, 100, [List.range' 1001 49, List.range' 1050 50]⟩ 1000) 0
      = some ((1001, none), ⟨1000, 100, [List.range' 1002 48 ++ [1000], List.range' 1050 50]⟩) := by
  refine ⟨?_, by decide, by decide, by decide⟩
  rw [New_spec start size groups states hrange hG hG32 (by omega)]
  simp only [freshPools, rotation, normOffset, Nat.mul_comm]

/-- Witness of C11 at `New(1000, 4, 2, [{0}, {1}])`. -/
theorem New_builds_rotations_witness :
    New 1000 4 2 [⟨0⟩, ⟨1⟩] = some (.ok ⟨1000, 4, [[1000, 1001], [1003, 1002]]⟩) :=
  (New_builds_rotations 1000 4 2 [⟨0⟩, ⟨1⟩] (by decide) (by decide) (by decide) (by decide)
    (by decide)).1

theorem releaseLoop_start_size (p : PortPool) (port : Nat) : ∀ (n i : Nat),
    (releaseLoop p port n i).start = p.start ∧ (releaseLoop p port n i).size = p.size := by
  intro n
  induction n with
  | zero => intro i; exact ⟨rfl, rfl⟩
  | succ n ih =>
    intro i
    rw [releaseLoop]
    split
    · exact ⟨rfl, rfl⟩
    · exact ih (i + 1)

theorem any_any_iff (L : List (List Nat)) (port : Nat) :
    L.any (fun pool => pool.any (fun existingPort => existingPort == port)) = true
      ↔ port ∈ L.flatten := by
  simp only [List.any_eq_true, beq_iff_eq, List.mem_flatten]
  constructor
  · rintro ⟨l, hl, x, hx, rfl⟩; exact ⟨l, hl, hx⟩
  · rintro ⟨l, hl, hx⟩; exact ⟨l, hl, port, hx, rfl⟩

theorem Release_of_mem (p : PortPool) (port : Nat) (h : port ∈ p.pools.flatten) :
    Release p port = p := by
  unfold Release
  split
  · rfl
  · rw [if_pos ((any_any_iff _ _).mpr h)]

theorem Release_Release (p : PortPool) (port : Nat) :
    Release (Release p port) port = Release p port := by
  by_cases hguard : port < p.start ∨ port ≥ u32 (p.start + p.size)
  · have : Release p port = p := by unfold Release; rw [if_pos hguard]
    rw [this, this]
  · by_cases hany : p.pools.any (fun pool => pool.any (fun existingPort => existingPort == port))
        = true
    · have : Release p port = p := by unfold Release; rw [if_neg hguard, if_pos hany]
      rw [this, this]
    · have hq : Release p port = releaseLoop p port p.pools.length 0 := by
        unfold Release; rw [if_neg hguard, if_neg hany]
      rw [hq]
      obtain ⟨hs, hz⟩ := releaseLoop_start_size p port p.pools.length 0
      rcases releaseLoop_pools p port p.pools.length 0 with h | h
      · have heq : releaseLoop p port p.pools.length 0 = p := by
          cases hr : releaseLoop p port p.pools.length 0 with
          | mk s z ps =>
            rw [hr] at hs hz h
            cases p
            simp only at hs hz h
            rw [hs, hz, h]
        rw [heq]
        exact hq.trans heq
      · exact Release_of_mem _ _ (h.symm.subset (List.mem_cons_self _ _))

theorem releaseLoop_first (p : PortPool) (port n : Nat) (hstart : p.start < 4294967296)
    (hport : p.start ≤ port) :
    releaseLoop p port (n + 1) 0
      = { p with pools := p.pools.modify (fun pool => pool ++ [port]) 0 } := by
  have e : u32 (p.start + u32 (u32 0 * p.size) / u32 p.pools.length) = p.start := by
    simp [u32]
    omega
  rw [releaseLoop, e, if_pos hport]

theorem count_modify_head (port : Nat) (L : List (List Nat)) (hL : L ≠ []) :
    (List.modify (fun pool => pool ++ [port]) 0 L).flatten.count port
      = L.flatten.count port + 1 := by
  cases L with
  | nil => exact absurd rfl hL
  | cons a rest =>
    show ((a ++ [port]) :: rest).flatten.count port = (a :: rest).flatten.count port + 1
    simp only [List.flatten_cons, List.count_append, List.count_singleton_self]
    omega

/-- C15: `Release(p)` twice leaves the same pool as `Release(p)` once; on a pool
with at least one group whose range does not wrap 32 bits, a port of the
managed range that occurred at most once occurs exactly once afterwards; and
`Release` of a port outside the range or already available changes nothing. -/
theorem Release_idempotent (p : PortPool) (port : Nat) :
    Release (Release p port) port = Release p port ∧
    (p.pools ≠ [] → p.start + p.size < 4294967296 → p.start ≤ port →
      port < p.start + p.size → p.pools.flatten.count port ≤ 1 →
      (Release p port).pools.flatten.count port = 1) ∧
    ((port < p.start ∨ p.start + p.size ≤ port ∨ port ∈ p.pools.flatten) →
      Release p port = p) := by
  refine ⟨Release_Release p port, ?_, ?_⟩
  · intro hne hwrap hlo hhi hcount
    by_cases hmem : port ∈ p.pools.flatten
    · rw [Release_of_mem p port hmem]
      have := List.count_pos_iff.mpr hmem
      omega
    · have e : u32 (p.start + p.size) = p.start + p.size := Nat.mod_eq_of_lt hwrap
      have hany : ¬ p.pools.any (fun pool => pool.any (fun existingPort => existingPort == port))
          = true := fun h => hmem ((any_any_iff _ _).mp h)
      obtain ⟨n, hn⟩ : ∃ n, p.pools.length = n + 1 :=
        ⟨p.pools.length - 1, by have := List.length_pos.mpr hne; omega⟩
      unfold Release
      rw [e, if_neg (by omega), if_neg hany, hn, releaseLoop_first p port n (by omega) hlo]
      simp only
      rw [count_modify_head port p.pools hne, List.count_eq_zero_of_not_mem hmem]
  · rintro (h | h | h)
    · unfold Release; rw [if_pos (Or.inl h)]
    · have : u32 (p.start + p.size) ≤ p.start + p.size := Nat.mod_le _ _
      unfold Release; rw [if_pos (Or.inr (by omega))]
    · exact Release_of_mem p port h

/-- Witness of C15 on the pool `[[1001], [1003]]` over `[1000, 1004)` and port 1002. -/
theorem Release_idempotent_witness :
    (Release ⟨1000, 4, [[1001], [1003]]⟩ 1002).pools.flatten.count 1002 = 1 :=
  (Release_idempotent ⟨1000, 4, [[1001], [1003]]⟩ 1002).2.1 (by decide) (by decide) (by decide)
    (by decide) (by decide)

/-! ## `New` under its preconditions -/

theorem freshPools_flatten_length (start size groups : Nat) (states : States) :
    (freshPools start size groups states).flatten.length = groups * (size / groups) := by
  rw [List.length_flatten, freshPools, List.map_map]
  have : (List.length ∘ fun i =>
      rotation (start + size / groups * i) (size / groups) (states.getD i ⟨0⟩))
      = fun _ => size / groups := by
    funext i
    simp [rotation_length]
  rw [this]
  simp

theorem New_faults (start size groups : Nat) (states : States)
    (hrange : start + size ≤ 65535) (h : groups = 0 ∨ states.length < groups) :
    New start size groups states = none := by
  have e1 : u32 (start + size) = start + size := Nat.mod_eq_of_lt (by omega)
  unfold New
  rw [e1, if_neg (by omega)]
  by_cases h0 : groups = 0
  · rw [if_pos h0]
  · rw [if_neg h0]
    have hlt : states.length < groups := by omega
    cases hloop : newLoop start (size / groups) states (List.range groups) with
    | none => rfl
    | some pools =>
      have := newLoop_some_lt _ _ _ _ _ hloop states.length (List.mem_range.mpr hlt)
      omega

/-- C24: for `start + size ≤ 65535`, `groups ≥ 1` and at least `groups` saved
states, `New` does not fault and returns a pool of exactly `groups` sequences,
each of length `size / groups`, holding `groups * (size / groups)` ports in
total, all inside `[start, start + size)`; with `groups = 0` or fewer saved
states than groups it faults. -/
theorem New_safe (start size groups : Nat) (states : States)
    (hrange : start + size ≤ 65535) (hG32 : groups < 4294967296) :
    (1 ≤ groups → groups ≤ states.length →
      ∃ P : PortPool, New start size groups states = some (.ok P) ∧
        P.pools.length = groups ∧
        (∀ pool ∈ P.pools, pool.length = size / groups) ∧
        P.pools.flatten.length = groups * (size / groups) ∧
        ∀ port ∈ P.pools.flatten, start ≤ port ∧ port < start + size) ∧
    (groups = 0 ∨ states.length < groups → New start size groups states = none) := by
  refine ⟨?_, New_faults start size groups states hrange⟩
  intro hG hstates
  refine ⟨_, New_spec start size groups states hrange hG hG32 hstates,
    freshPools_length _ _ _ _, ?_, freshPools_flatten_length _ _ _ _, ?_⟩
  · intro pool hpool
    simp only [freshPools, List.mem_map] at hpool
    obtain ⟨i, _, rfl⟩ := hpool
    exact rotation_length _ _ _
  · intro port hport
    simp only [List.mem_flatten, freshPools, List.mem_map] at hport
    obtain ⟨pool, ⟨i, hi, rfl⟩, hmem⟩ := hport
    rw [mem_rotation] at hmem
    have hi' : i < groups := List.mem_range.mp hi
    have h1 : size / groups * (i + 1) ≤ size / groups * groups := Nat.mul_le_mul_left _ hi'
    have h2 : size / groups * groups ≤ size := Nat.div_mul_le_self size groups
    have h3 : size / groups * (i + 1) = size / groups * i + size / groups := by ring
    omega

/-- Witness of C24 at `New(1000, 5, 2, [{0}, {1}, {0}])`. -/
theorem New_safe_witness :
    ∃ P : PortPool, New 1000 5 2 [⟨0⟩, ⟨1⟩, ⟨0⟩] = some (.ok P) ∧
      P.pools.length = 2 ∧
      (∀ pool ∈ P.pools, pool.length = 5 / 2) ∧
      P.pools.flatten.length = 2 * (5 / 2) ∧
      ∀ port ∈ P.pools.flatten, 1000 ≤ port ∧ port < 1000 + 5 :=
  (New_safe 1000 5 2 [⟨0⟩, ⟨1⟩, ⟨0⟩] (by decide) (by decide)).1 (by decide) (by decide)

end PortPoolModel

namespace LinuxContainerModel
open PortPoolModel (u32)

/-! ## The process id pool -/

theorem Restore_currentProcessID (p : ProcessIDPool) (id : Nat) :
    (p.Restore id).currentProcessID = max p.currentProcessID id := by
  unfold ProcessIDPool.Restore
  split
  · simp only; omega
  · omega

theorem foldl_Restore_ge : ∀ (ids : List Nat) (p : ProcessIDPool),
    p.currentProcessID ≤ (ids.foldl ProcessIDPool.Restore p).currentProcessID ∧
    ∀ x ∈ ids, x ≤ (ids.foldl ProcessIDPool.Restore p).currentProcessID := by
  intro ids
  induction ids with
  | nil => intro p; simp
  | cons id rest ih =>
    intro p
    have h := ih (p.Restore id)
    have e := Restore_currentProcessID p id
    simp only [List.foldl_cons, List.mem_cons, forall_eq_or_imp]
    refine ⟨by omega, by omega, h.2⟩

/-- C17: `Restore(id)` leaves the counter equal to `max(c, id)` and never lowers
it; after `Restore` has been applied to every process id of a snapshot the
counter is at least each of them. -/
theorem Restore_raises_floor (p : ProcessIDPool) (id : Nat) (ids : List Nat) :
    (p.Restore id).currentProcessID = max p.currentProcessID id ∧
    p.currentProcessID ≤ (p.Restore id).currentProcessID ∧
    ∀ x ∈ ids, x ≤ (ids.foldl ProcessIDPool.Restore p).currentProcessID := by
  have e := Restore_currentProcessID p id
  exact ⟨e, by omega, (foldl_Restore_ge ids p).2⟩

/-- Witness of C17 on the counter 5 and the snapshot ids 3, 9, 4. -/
theorem Restore_raises_floor_witness :
    9 ≤ ([3, 9, 4].foldl ProcessIDPool.Restore ⟨5⟩).currentProcessID :=
  (Restore_raises_floor ⟨5⟩ 7 [3, 9, 4]).2.2 9 (by decide)

/-- C18 (as stated): on the counter value `2^32 - 1` the call `Next` returns 0,
not the previous value plus 1, and the counter decreases; after `Restore(4294967295)`
the id returned by `Next` is below the restored id. -/
theorem Next_wraps_around :
    ProcessIDPool.Next ⟨4294967295⟩ = (0, ⟨0⟩) ∧
    pidRun ⟨0⟩ [.Restore 4294967295, .Next] = ([0], ⟨0⟩) := by
  decide

theorem Next_of_lt (p : ProcessIDPool) (h : p.currentProcessID + 1 < 4294967296) :
    p.Next = (p.currentProcessID + 1, ⟨p.currentProcessID + 1⟩) := by
  unfold ProcessIDPool.Next
  simp only [u32, Nat.mod_eq_of_lt h]

theorem pidRun_bounds : ∀ (calls : List PidCall) (p : ProcessIDPool), noWrap p calls = true →
    p.currentProcessID ≤ (pidRun p calls).2.currentProcessID ∧
    (∀ v ∈ (pidRun p calls).1, v ≤ (pidRun p calls).2.currentProcessID) ∧
    (∀ id, PidCall.Restore id ∈ calls → id ≤ (pidRun p calls).2.currentProcessID) := by
  intro calls
  induction calls with
  | nil => intro p _; simp [pidRun]
  | cons call rest ih =>
    intro p h
    cases call with
    | Next =>
      simp only [noWrap, Bool.and_eq_true, decide_eq_true_eq] at h
      obtain ⟨h1, h2, h3⟩ := ih (p.Next).2 h.2
      have e := Next_of_lt p h.1
      rw [e] at h1 h2 h3
      simp only [pidRun, e, List.mem_cons, forall_eq_or_imp]
      refine ⟨by simp only at h1; omega, ⟨by simp only at h1; omega, h2⟩, ?_⟩
      intro id hid
      rcases hid with hid | hid
      · cases hid
      · exact h3 id hid
    | Restore id0 =>
      simp only [noWrap] at h
      obtain ⟨h1, h2, h3⟩ := ih (p.Restore id0) h
      have e := Restore_currentProcessID p id0
      simp only [pidRun]
      refine ⟨by omega, h2, ?_⟩
      intro id hid
      simp only [List.mem_cons, PidCall.Restore.injEq] at hid
      rcases hid with hid | hid
      · subst hid; omega
      · exact h3 id hid

/-- C18 (amended): below `2^32 - 1` the call `Next` returns the previous counter
value plus 1; along a sequence of `Next` and `Restore` calls none of which wraps
the counter, the counter does not decrease, and a following `Next` returns a
value strictly greater than every value `Next` returned and every id `Restore`
was given before. -/
theorem Next_never_recycles (p : ProcessIDPool) (calls : List PidCall)
    (hcalls : noWrap p calls = true)
    (hnext : (pidRun p calls).2.currentProcessID + 1 < 4294967296) :
    ((pidRun p calls).2.Next).1 = (pidRun p calls).2.currentProcessID + 1 ∧
    p.currentProcessID ≤ (pidRun p calls).2.currentProcessID ∧
    (∀ v ∈ (pidRun p calls).1, v < ((pidRun p calls).2.Next).1) ∧
    (∀ id, PidCall.Restore id ∈ calls → id < ((pidRun p calls).2.Next).1) := by
  obtain ⟨h1, h2, h3⟩ := pidRun_bounds calls p hcalls
  rw [Next_of_lt _ hnext]
  refine ⟨rfl, h1, ?_, ?_⟩
  · intro v hv
    have := h2 v hv
    simp only
    omega
  · intro id hid
    have := h3 id hid
    simp only
    omega

/-- Witness of C18 (amended) on the calls `Next`, `Restore(7)`, `Next` from counter 0. -/
theorem Next_never_recycles_witness :
    ((pidRun ⟨0⟩ [.Next, .Restore 7, .Next]).2.Next).1
        = (pidRun ⟨0⟩ [.Next, .Restore 7, .Next]).2.currentProcessID + 1 ∧
    (0 : Nat) ≤ (pidRun ⟨0⟩ [.Next, .Restore 7, .Next]).2.currentProcessID ∧
    (∀ v ∈ (pidRun ⟨0⟩ [.Next, .Restore 7, .Next]).1,
      v < ((pidRun ⟨0⟩ [.Next, .Restore 7, .Next]).2.Next).1) ∧
    (∀ id, PidCall.Restore id ∈ [PidCall.Next, .Restore 7, .Next] →
      id < ((pidRun ⟨0⟩ [.Next, .Restore 7, .Next]).2.Next).1) :=
  Next_never_recycles ⟨0⟩ [.Next, .Restore 7, .Next] (by decide) (by decide)

/-! ## Container properties -/

theorem mapGet_eq_none_iff (m : Properties) (key : String) :
    mapGet m key = none ↔ key ∉ m.map Prod.fst := by
  induction m with
  | nil => simp [mapGet]
  | cons e rest ih =>
    obtain ⟨k, v⟩ := e
    simp only [mapGet, List.map_cons, List.mem_cons, not_or]
    by_cases h : k = key
    · simp [h]
    · simp only [if_neg h, ih]
      exact ⟨fun hr => ⟨fun e => h e.symm, hr⟩, fun hr => hr.2⟩

theorem mapGet_mapDelete (m : Properties) (key k' : String) :
    mapGet (mapDelete m key) k' = if k' = key then none else mapGet m k' := by
  induction m with
  | nil => simp [mapDelete, mapGet]
  | cons e rest ih =>
    obtain ⟨k, v⟩ := e
    unfold mapDelete at ih ⊢
    by_cases hk : k = key
    · subst hk
      simp only [List.filter_cons, ne_eq, not_true_eq_false, decide_False, Bool.false_eq_true,
        if_false, ih, mapGet]
      by_cases h2 : k' = k
      · simp [h2]
      · have : ¬ k = k' := fun e => h2 e.symm
        simp [h2, this]
    · simp only [List.filter_cons, ne_eq, hk, not_false_eq_true, decide_True, if_true, mapGet, ih]
      by_cases h2 : k = k'
      · subst h2
        simp [hk]
      · simp [h2]

theorem mapGet_mapSet (m : Properties) (key value k' : String) :
    mapGet (mapSet m key value) k' = if key = k' then some value else mapGet m k' := by
  unfold mapSet
  simp only [mapGet, mapGet_mapDelete]
  by_cases h : key = k'
  · simp [h]
  · have : ¬ k' = key := fun e => h e.symm
    simp [h, this]

theorem mapGet_copy : ∀ (m acc : Properties) (k' : String), (m.map Prod.fst).Nodup →
    mapGet (m.foldl (fun props e => mapSet props e.1 e.2) acc) k'
      = match mapGet m k' with
        | some v => some v
        | none => mapGet acc k' := by
  intro m
  induction m with
  | nil => intro acc k' _; simp [mapGet]
  | cons e rest ih =>
    intro acc k' hnd
    obtain ⟨k, v⟩ := e
    simp only [List.map_cons, List.nodup_cons] at hnd
    rw [List.foldl_cons, ih _ _ hnd.2, mapGet_mapSet]
    have hcons : mapGet ((k, v) :: rest) k' = if k = k' then some v else mapGet rest k' := rfl
    rw [hcons]
    by_cases h : k = k'
    · subst h
      rw [(mapGet_eq_none_iff rest k).mpr hnd.1]
      simp
    · simp only [if_neg h]

/-- C12: on a property map (keys distinct) `SetProperty(k, v)` returns no error,
after it `Property(k)` returns `v` with no error, and `Property(k')` of every
other key returns what it returned before. -/
theorem SetProperty_then_Property (c : LinuxContainer) (key value : String)
    (hkeys : (c.spec.Properties.map Prod.fst).Nodup) :
    (c.SetProperty key value).1 = none ∧
    (c.SetProperty key value).2.Property key = (value, none) ∧
    ∀ k', k' ≠ key → (c.SetProperty key value).2.Property k' = c.Property k' := by
  refine ⟨rfl, ?_, ?_⟩
  · simp only [LinuxContainer.Property, LinuxContainer.SetProperty, mapGet_mapSet, if_true]
  · intro k' hk
    have : ¬ key = k' := fun e => hk e.symm
    simp only [LinuxContainer.Property, LinuxContainer.SetProperty, mapGet_mapSet, if_neg this,
      mapGet_copy _ _ _ hkeys]
    cases mapGet c.spec.Properties k' <;> simp [mapGet]

/-- Witness of C12 on the map `{a: 1, b: 2}` and `SetProperty("a", "3")`. -/
theorem SetProperty_then_Property_witness :
    ((NewLinuxContainer ⟨"", "", "", [], [], [("a", "1"), ("b", "2")], [], [], [], none, [], ""⟩
        ⟨0, 0, []⟩).SetProperty "a" "3").2.Property "a" = ("3", none) :=
  (SetProperty_then_Property
    (NewLinuxContainer ⟨"", "", "", [], [], [("a", "1"), ("b", "2")], [], [], [], none, [], ""⟩
      ⟨0, 0, []⟩) "a" "3" (by decide)).2.1

/-- C13: `RemoveProperty(k)` returns `UndefinedPropertyError{k}` exactly when `k`
is absent, and then the container is unchanged; otherwise it returns no error,
after it `Property(k)` fails with `UndefinedPropertyError{k}` and every other key
keeps its value. -/
theorem RemoveProperty_spec (c : LinuxContainer) (key : String) :
    ((c.RemoveProperty key).1 = some (.UndefinedPropertyError key)
      ↔ key ∉ c.spec.Properties.map Prod.fst) ∧
    (key ∉ c.spec.Properties.map Prod.fst → (c.RemoveProperty key).2 = c) ∧
    (key ∈ c.spec.Properties.map Prod.fst →
      (c.RemoveProperty key).1 = none ∧
      (c.RemoveProperty key).2.Property key = ("", some (.UndefinedPropertyError key)) ∧
      ∀ k', k' ≠ key → (c.RemoveProperty key).2.Property k' = c.Property k') := by
  have hiff := mapGet_eq_none_iff c.spec.Properties key
  refine ⟨?_, ?_, ?_⟩
  · rw [← hiff]
    unfold LinuxContainer.RemoveProperty
    cases mapGet c.spec.Properties key <;> simp
  · intro h
    unfold LinuxContainer.RemoveProperty
    rw [hiff.mpr h]
  · intro h
    have hne : mapGet c.spec.Properties key ≠ none := fun e => hiff.mp e h
    obtain ⟨v, hv⟩ := Option.ne_none_iff_exists'.mp hne
    unfold LinuxContainer.RemoveProperty
    rw [hv]
    refine ⟨rfl, ?_, ?_⟩
    · simp only [LinuxContainer.Property, mapGet_mapDelete, if_true]
    · intro k' hk
      simp only [LinuxContainer.Property, mapGet_mapDelete, if_neg hk]

/-- Witness of C13 on the map `{a: 1, b: 2}` and `RemoveProperty("a")`. -/
theorem RemoveProperty_spec_witness :
    ((NewLinuxContainer ⟨"", "", "", [], [], [("a", "1"), ("b", "2")], [], [], [], none, [], ""⟩
        ⟨0, 0, []⟩).RemoveProperty "a").1 = none ∧
    ((NewLinuxContainer ⟨"", "", "", [], [], [("a", "1"), ("b", "2")], [], [], [], none, [], ""⟩
        ⟨0, 0, []⟩).RemoveProperty "a").2.Property "a"
      = ("", some (.UndefinedPropertyError "a")) ∧
    ∀ k', k' ≠ "a" →
      ((NewLinuxContainer ⟨"", "", "", [], [], [("a", "1"), ("b", "2")], [], [], [], none, [], ""⟩
        ⟨0, 0, []⟩).RemoveProperty "a").2.Property k'
      = (NewLinuxContainer ⟨"", "", "", [], [], [("a", "1"), ("b", "2")], [], [], [], none, [], ""⟩
        ⟨0, 0, []⟩).Property k' :=
  (RemoveProperty_spec
    (NewLinuxContainer ⟨"", "", "", [], [], [("a", "1"), ("b", "2")], [], [], [], none, [], ""⟩
      ⟨0, 0, []⟩) "a").2.2 (by decide)

theorem hasPropertiesLoop_iff (props : Properties) : ∀ (properties : Properties),
    hasPropertiesLoop props properties = true
      ↔ ∀ k v, (k, v) ∈ properties → mapGet props k = some v := by
  intro properties
  induction properties with
  | nil => simp [hasPropertiesLoop]
  | cons e rest ih =>
    obtain ⟨k, v⟩ := e
    simp only [hasPropertiesLoop, List.mem_cons, Prod.mk.injEq]
    cases hget : mapGet props k with
    | none =>
      simp only [Bool.false_eq_true, false_iff, not_forall]
      exact ⟨k, v, Or.inl ⟨rfl, rfl⟩, by simp [hget]⟩
    | some value =>
      by_cases hv : value = v
      · subst hv
        simp only [ne_eq, not_true_eq_false, if_false, ih]
        constructor
        · rintro h k' v' (⟨rfl, rfl⟩ | h')
          · exact hget
          · exact h k' v' h'
        · intro h k' v' h'
          exact h k' v' (Or.inr h')
      · simp only [ne_eq, hv, not_false_eq_true, if_true, Bool.false_eq_true, false_iff,
          not_forall]
        refine ⟨k, v, Or.inl ⟨rfl, rfl⟩, ?_⟩
        rw [hget]
        simpa using hv

/-- C14: `HasProperties(S)` is true exactly when every entry `(k, v)` of `S` has
`k` present in the container's map with the value `v`; for the empty `S` it is
true, and a key present with another value makes it false. -/
theorem HasProperties_iff (c : LinuxContainer) (properties : Properties) :
    (c.HasProperties properties = true
      ↔ ∀ k v, (k, v) ∈ properties → c.Property k = (v, none)) ∧
    c.HasProperties [] = true ∧
    (∀ k v v', (k, v) ∈ properties → c.Property k = (v', none) → v' ≠ v →
      c.HasProperties properties = false) := by
  have hprop : ∀ k v, c.Property k = (v, none) ↔ mapGet c.spec.Properties k = some v := by
    intro k v
    unfold LinuxContainer.Property
    cases mapGet c.spec.Properties k <;> simp
  have hiff : c.HasProperties properties = true
      ↔ ∀ k v, (k, v) ∈ properties → c.Property k = (v, none) := by
    unfold LinuxContainer.HasProperties
    rw [hasPropertiesLoop_iff]
    constructor
    · intro h k v hkv; exact (hprop k v).mpr (h k v hkv)
    · intro h k v hkv; exact (hprop k v).mp (h k v hkv)
  refine ⟨hiff, rfl, ?_⟩
  intro k v v' hkv hget hne
  cases hb : c.HasProperties properties with
  | false => rfl
  | true =>
    have := hiff.mp hb k v hkv
    rw [hget] at this
    simp only [Prod.mk.injEq, and_true] at this
    exact absurd this hne

/-- Witness of C14 on the map `{a: 1, b: 2}` and the request `{a: 2}`. -/
theorem HasProperties_iff_witness :
    (NewLinuxContainer ⟨"", "", "", [], [], [("a", "1"), ("b", "2")], [], [], [], none, [], ""⟩
        ⟨0, 0, []⟩).HasProperties [("a", "2")] = false :=
  (HasProperties_iff
    (NewLinuxContainer ⟨"", "", "", [], [], [("a", "1"), ("b", "2")], [], [], [], none, [], ""⟩
      ⟨0, 0, []⟩) [("a", "2")]).2.2 "a" "2" "1" (by decide) (by decide) (by decide)

/-! ## The policy service -/

/-- C19: with the space property set, a `NetIn(8080, 80)` whose policy POST gets
no response faults (nil dereference in `postendpoint`), whereas with a response,
of status 200 or 500, it returns `(8080, 80, nil)` and records the mapping. -/
theorem NetIn_post_failure_faults :
    (NewLinuxContainer ⟨"id", "/c", "active", [], [], [("network.space_id", "s")], [], [], [],
        none, [], "10.0.0.1"⟩ ⟨1000, 4, [[1000, 1001], [1002, 1003]]⟩).NetIn
      { quietWorld with httpPost := fun _ _ => .failure } 8080 80 = none ∧
    (NewLinuxContainer ⟨"id", "/c", "active", [], [], [("network.space_id", "s")], [], [], [],
        none, [], "10.0.0.1"⟩ ⟨1000, 4, [[1000, 1001], [1002, 1003]]⟩).NetIn
      { quietWorld with httpPost := fun _ _ => .response 500 "" } 8080 80
      = some ((8080, 80, none),
          NewLinuxContainer ⟨"id", "/c", "active", [], [], [("network.space_id", "s")],
            [⟨8080, 80⟩], [], [], none, [], "10.0.0.1"⟩ ⟨1000, 4, [[1000, 1001], [1002, 1003]]⟩) ∧
    (NewLinuxContainer ⟨"id", "/c", "active", [], [], [("network.space_id", "s")], [], [], [],
        none, [], "10.0.0.1"⟩ ⟨1000, 4, [[1000, 1001], [1002, 1003]]⟩).NetIn
      quietWorld 8080 80
      = some ((8080, 80, none),
          NewLinuxContainer ⟨"id", "/c", "active", [], [], [("network.space_id", "s")],
            [⟨8080, 80⟩], [], [], none, [], "10.0.0.1"⟩ ⟨1000, 4, [[1000, 1001], [1002, 1003]]⟩) := by
  decide

/-- C20 (as stated): on the response body `-1` the function `GetPoolID` returns
the negative value -1, on which `Acquire` faults. -/
theorem GetPoolID_negative :
    GetPoolID { quietWorld with httpGet := fun _ => .response 200 "-1" } "s" = some (-1) ∧
    PortPoolModel.Acquire ⟨1000, 4, [[1000, 1001], [1002, 1003]]⟩ (-1) = none := by
  decide

theorem Atoi_syntax_zero (s : String) (h : (Atoi s).2 = some .ErrSyntax) : (Atoi s).1 = 0 := by
  unfold Atoi at h ⊢
  cases hdata : s.data with
  | nil => rfl
  | cons c0 rest =>
    simp only [hdata] at h ⊢
    generalize (if c0 = '-' ∨ c0 = '+' then rest else c0 :: rest) = digits at h ⊢
    by_cases hd : digits = []
    · simp only [hd, if_true]
    · simp only [if_neg hd] at h ⊢
      cases hp : parseDigits digits 0 with
      | error e =>
        cases e with
        | ErrSyntax => rfl
        | ErrRange =>
          simp only [hp] at h
          split_ifs at h <;> simp at h
      | ok n =>
        simp only [hp] at h ⊢
        split_ifs at h ⊢ <;> simp_all

theorem digitChar_digit (d : Nat) (hd : d < 10) :
    ('0' ≤ Nat.digitChar d ∧ Nat.digitChar d ≤ '9') ∧ (Nat.digitChar d).toNat - 48 = d ∧
      Nat.digitChar d ≠ '-' ∧ Nat.digitChar d ≠ '+' := by
  interval_cases d <;> decide

theorem foldl_digits_ge : ∀ (ds : List Nat) (n : Nat),
    n ≤ ds.foldl (fun n d => n * 10 + d) n := by
  intro ds
  induction ds with
  | nil => intro n; exact Nat.le_refl n
  | cons d rest ih =>
    intro n
    have := ih (n * 10 + d)
    simp only [List.foldl_cons]
    omega

theorem parseDigits_digits : ∀ (ds : List Nat) (n : Nat), (∀ d ∈ ds, d < 10) →
    ds.foldl (fun n d => n * 10 + d) n ≤ 18446744073709551615 →
    parseDigits (ds.map Nat.digitChar) n = .ok (ds.foldl (fun n d => n * 10 + d) n) := by
  intro ds
  induction ds with
  | nil => intro n _ _; rfl
  | cons d rest ih =>
    intro n h hval
    obtain ⟨h1, h2, _⟩ := digitChar_digit d (h d (List.mem_cons_self _ _))
    have hge := foldl_digits_ge rest (n * 10 + d)
    simp only [List.foldl_cons] at hval
    simp only [List.map_cons, parseDigits, if_pos h1, h2, List.foldl_cons]
    rw [if_neg (by omega)]
    exact ih _ (fun x hx => h x (List.mem_cons_of_mem _ hx)) hval

theorem Atoi_digits (ds : List Nat) (hne : ds ≠ []) (hds : ∀ d ∈ ds, d < 10)
    (hval : ds.foldl (fun n d => n * 10 + d) 0 < 9223372036854775808) :
    Atoi (String.mk (ds.map Nat.digitChar))
      = (((ds.foldl (fun n d => n * 10 + d) 0 : Nat) : Int), none) := by
  cases ds with
  | nil => exact absurd rfl hne
  | cons d rest =>
    obtain ⟨_, _, hm, hp⟩ := digitChar_digit d (hds d (List.mem_cons_self _ _))
    have hparse := parseDigits_digits (d :: rest) 0 hds (by omega)
    simp only [List.map_cons] at hparse
    unfold Atoi
    simp only [List.map_cons, hm, hp, or_self, if_false, hparse]
    rw [if_neg (by simp), if_neg (by omega)]

/-- C20 (amended): when the policy service answers, `GetPoolID` returns the value
`strconv.Atoi` gives for the body: 0 when the body is empty or not an integer,
and the decimal value of a body made of digits (below `2^63`). -/
theorem GetPoolID_of_response (w : World) (space : String) (status : Nat) (body : String)
    (h : w.httpGet (GetUrl w ++ "?space=" ++ space) = .response status body) :
    GetPoolID w space = some (Atoi body).1 ∧
    (body = "" → GetPoolID w space = some 0) ∧
    ((Atoi body).2 = some .ErrSyntax → GetPoolID w space = some 0) ∧
    (∀ ds : List Nat, ds ≠ [] → (∀ d ∈ ds, d < 10) →
      ds.foldl (fun n d => n * 10 + d) 0 < 9223372036854775808 →
      body = String.mk (ds.map Nat.digitChar) →
      GetPoolID w space = some ((ds.foldl (fun n d => n * 10 + d) 0 : Nat) : Int)) := by
  have hget : GetPoolID w space = some (Atoi body).1 := by
    unfold GetPoolID
    rw [h]
  refine ⟨hget, ?_, ?_, ?_⟩
  · intro hb
    rw [hget, hb]
    rfl
  · intro hs
    rw [hget, Atoi_syntax_zero body hs]
  · intro ds hne hds hval hb
    rw [hget, hb, Atoi_digits ds hne hds hval]

/-- Witness of C20 (amended) on the response body `1`. -/
theorem GetPoolID_of_response_witness :
    GetPoolID { quietWorld with httpGet := fun _ => .response 200 "1" } "s" = some (Atoi "1").1 :=
  (GetPoolID_of_response { quietWorld with httpGet := fun _ => .response 200 "1" } "s" 200 "1"
    rfl).1

/-! ## `Restore` -/

/-- C16 (as stated): on a container built from a spec with the event `oom` and
the mapping `8080 -> 80`, a successful `Restore` of that same spec leaves the
event and the mapping twice. -/
theorem Restore_duplicates_events :
    ((NewLinuxContainer ⟨"id", "/c", "active", ["oom"], [], [], [⟨8080, 80⟩], [], [], none, [],
        "10.0.0.1"⟩ ⟨1000, 4, [[1000, 1001], [1002, 1003]]⟩).Restore quietWorld
      ⟨"id", "/c", "active", ["oom"], [], [], [⟨8080, 80⟩], [], [], none, [], "10.0.0.1"⟩).map
        (fun r => (r.1, r.2.spec.Events, r.2.spec.NetIns))
      = some (none, ["oom", "oom"], [⟨8080, 80⟩, ⟨8080, 80⟩]) := by
  decide

theorem postendpoint_ok (w : World) (space ip : String) (port : Nat)
    (hpost : ∀ url body, w.httpPost url body ≠ .failure) :
    postendpoint w space ip port = some () := by
  unfold postendpoint
  simp only
  split
  · rename_i hf
    exact absurd hf (hpost _ _)
  · rfl

theorem NetIn_hostPort (w : World) (c : LinuxContainer) (hostPort containerPort : Nat)
    (hport : hostPort ≠ 0) (hrun : ∀ cmd, w.Run cmd = none)
    (hpost : ∀ url body, w.httpPost url body ≠ .failure) :
    c.NetIn w hostPort containerPort
      = some ((hostPort, (resolved ⟨hostPort, containerPort⟩).ContainerPort, none),
          { c with spec := { c.spec with
              NetIns := c.spec.NetIns ++ [resolved ⟨hostPort, containerPort⟩] } }) := by
  have hnotify : ∀ cp, netInNotify w c hostPort cp = some () := by
    intro cp
    unfold netInNotify
    split
    · simp only
      split
      · exact postendpoint_ok w _ _ _ hpost
      · rfl
    · rfl
  unfold LinuxContainer.NetIn netInAcquire
  simp only [if_neg hport, hnotify, hrun, resolved]

theorem restoreNetIns_ok (w : World) (hrun : ∀ cmd, w.Run cmd = none)
    (hpost : ∀ url body, w.httpPost url body ≠ .failure) :
    ∀ (ins : List NetInSpec) (c : LinuxContainer), (∀ i ∈ ins, i.HostPort ≠ 0) →
    restoreNetIns w c ins
      = some (none, { c with spec := { c.spec with
          NetIns := c.spec.NetIns ++ ins.map resolved } }) := by
  intro ins
  induction ins with
  | nil => intro c _; simp [restoreNetIns]
  | cons i rest ih =>
    intro c h
    rw [restoreNetIns, NetIn_hostPort w c i.HostPort i.ContainerPort
      (h i (List.mem_cons_self _ _)) hrun hpost]
    simp only
    rw [ih _ (fun j hj => h j (List.mem_cons_of_mem _ hj))]
    simp

theorem restoreNetOuts_ok (w : World) (hout : ∀ r, w.NetOut r = none) :
    ∀ (outs : List String) (c : LinuxContainer),
    restoreNetOuts w c outs
      = (none, { c with spec := { c.spec with NetOuts := c.spec.NetOuts ++ outs } }) := by
  intro outs
  induction outs with
  | nil => intro c; simp [restoreNetOuts]
  | cons out rest ih =>
    intro c
    rw [restoreNetOuts]
    simp only [LinuxContainer.NetOut, hout]
    rw [ih]
    simp

theorem foldl_registerEvent : ∀ (events : List String) (c : LinuxContainer),
    events.foldl LinuxContainer.registerEvent c
      = { c with spec := { c.spec with Events := c.spec.Events ++ events } } := by
  intro events
  induction events with
  | nil => intro c; simp
  | cons e rest ih =>
    intro c
    rw [List.foldl_cons, ih]
    simp [LinuxContainer.registerEvent]

theorem Restore_ok (w : World) (c : LinuxContainer) (snapshot : LinuxContainerSpec)
    (hrun : ∀ cmd, w.Run cmd = none) (hpost : ∀ url body, w.httpPost url body ≠ .failure)
    (hmem : ∀ limit, w.LimitMemory limit = none) (hsetup : ∀ id, w.ContainerSetup id = none)
    (hout : ∀ r, w.NetOut r = none) (hports : ∀ i ∈ snapshot.NetIns, i.HostPort ≠ 0) :
    c.Restore w snapshot = some (none,
      { spec := { c.spec with
          State := snapshot.State, Env := snapshot.Env,
          Events := c.spec.Events ++ snapshot.Events,
          NetIns := c.spec.NetIns ++ snapshot.NetIns.map resolved,
          NetOuts := c.spec.NetOuts ++ snapshot.NetOuts },
        portPool := c.portPool,
        processIDPool := snapshot.Processes.foldl ProcessIDPool.Restore c.processIDPool }) := by
  have hlim : (match snapshot.MemoryLimit with
      | some limit => w.LimitMemory limit
      | none => none) = none := by
    cases snapshot.MemoryLimit <;> simp [hmem]
  unfold LinuxContainer.Restore
  simp only [hlim, hsetup, foldl_registerEvent, restoreNetIns_ok w hrun hpost _ _ hports,
    restoreNetOuts_ok w hout, LinuxContainer.setState]

/-- C16 (amended): when every collaborator call succeeds and the mappings of `S`
have non-zero host ports, `Restore(S)` on a container built from a spec `S0`
succeeds and leaves `State = S.State`, `Env = S.Env`, `Properties = S0.Properties`,
`Events = S0.Events ++ S.Events` and `NetIns = S0.NetIns` followed by the
mappings of `S` as `NetIn` records them; a second `Restore(S)` succeeds too and
appends the events and mappings of `S` once more. -/
theorem Restore_appends (w : World) (S0 S : LinuxContainerSpec) (pool : PortPoolModel.PortPool)
    (hrun : ∀ cmd, w.Run cmd = none) (hpost : ∀ url body, w.httpPost url body ≠ .failure)
    (hmem : ∀ limit, w.LimitMemory limit = none) (hsetup : ∀ id, w.ContainerSetup id = none)
    (hout : ∀ r, w.NetOut r = none) (hports : ∀ i ∈ S.NetIns, i.HostPort ≠ 0) :
    ∃ c1 c2 : LinuxContainer,
      (NewLinuxContainer S0 pool).Restore w S = some (none, c1) ∧
      c1.spec.State = S.State ∧ c1.spec.Env = S.Env ∧ c1.spec.Properties = S0.Properties ∧
      c1.spec.Events = S0.Events ++ S.Events ∧
      c1.spec.NetIns = S0.NetIns ++ S.NetIns.map resolved ∧
      c1.Restore w S = some (none, c2) ∧
      c2.spec.State = S.State ∧ c2.spec.Env = S.Env ∧ c2.spec.Properties = S0.Properties ∧
      c2.spec.Events = S0.Events ++ S.Events ++ S.Events ∧
      c2.spec.NetIns = S0.NetIns ++ S.NetIns.map resolved ++ S.NetIns.map resolved := by
  refine ⟨_, _, Restore_ok w _ S hrun hpost hmem hsetup hout hports, rfl, rfl, rfl, rfl, rfl,
    Restore_ok w _ S hrun hpost hmem hsetup hout hports, rfl, rfl, rfl, rfl, rfl⟩

/-- Witness of C16 (amended): a container built with no events and no mappings,
restored from a spec with the event `oom` and the mapping `8080 -> 80`. -/
theorem Restore_appends_witness :
    ∃ c1 c2 : LinuxContainer,
      (NewLinuxContainer ⟨"id", "/c", "born", [], [], [], [], [], [], none, [], "10.0.0.1"⟩
          ⟨1000, 4, [[1000, 1001], [1002, 1003]]⟩).Restore quietWorld
        ⟨"id", "/c", "active", ["oom"], ["A=1"], [], [⟨8080, 80⟩], [], [7], none, [], "10.0.0.1"⟩
        = some (none, c1) ∧
      c1.spec.State = "active" ∧ c1.spec.Env = ["A=1"] ∧ c1.spec.Properties = [] ∧
      c1.spec.Events = [] ++ ["oom"] ∧
      c1.spec.NetIns = [] ++ [(⟨8080, 80⟩ : NetInSpec)].map resolved ∧
      c1.Restore quietWorld
        ⟨"id", "/c", "active", ["oom"], ["A=1"], [], [⟨8080, 80⟩], [], [7], none, [], "10.0.0.1"⟩
        = some (none, c2) ∧
      c2.spec.State = "active" ∧ c2.spec.Env = ["A=1"] ∧ c2.spec.Properties = [] ∧
      c2.spec.Events = [] ++ ["oom"] ++ ["oom"] ∧
      c2.spec.NetIns = [] ++ [(⟨8080, 80⟩ : NetInSpec)].map resolved
        ++ [(⟨8080, 80⟩ : NetInSpec)].map resolved :=
  Restore_appends quietWorld
    ⟨"id", "/c", "born", [], [], [], [], [], [], none, [], "10.0.0.1"⟩
    ⟨"id", "/c", "active", ["oom"], ["A=1"], [], [⟨8080, 80⟩], [], [7], none, [], "10.0.0.1"⟩
    ⟨1000, 4, [[1000, 1001], [1002, 1003]]⟩
    (fun _ => rfl) (by intro url body; simp [quietWorld]) (fun _ => rfl) (fun _ => rfl)
    (fun _ => rfl)
    (by decide)

/-! ## `NetIn` with a given host port -/

theorem path_Join_examples :
    path.Join ["a", "b", "c"] = "a/b/c" ∧ path.Join ["a/b", "../../../xyz"] = "../xyz" ∧
    path.Join ["", ""] = "" ∧ path.Join ["a", ""] = "a" ∧ path.Join ["", "net.sh"] = "net.sh" ∧
    path.Join ["/c/", "start.sh"] = "/c/start.sh" ∧ path.Join ["/c", "stop.sh"] = "/c/stop.sh" ∧
    path.Clean "/../a/b/../././/c" = "/a/c" ∧ path.Clean "" = "." := by
  decide

theorem netInAcquire_hostPort (w : World) (c : LinuxContainer) (hostPort : Nat)
    (hport : hostPort ≠ 0) : netInAcquire w c hostPort = some (none, hostPort, c) := by
  unfold netInAcquire
  rw [if_neg hport]

/-- C21: for `hostPort ≠ 0` the first block of `NetIn` makes no `Acquire` and
the pool is the same after the call; the container port is `containerPort` if
non-zero and `hostPort` otherwise; when `net.sh` is run and succeeds `NetIn`
returns `(hostPort, resolved port, nil)` and appends exactly that pair to
`NetIns`; when it is run and fails `NetIn` returns `(0, 0, err)` and the
container is unchanged.  The script is run unless the policy notification
faults. -/
theorem NetIn_explicit_hostPort (w : World) (c : LinuxContainer) (hostPort containerPort : Nat)
    (hport : hostPort ≠ 0) :
    netInAcquire w c hostPort = some (none, hostPort, c) ∧
    (∀ r c', c.NetIn w hostPort containerPort = some (r, c') → c'.portPool = c.portPool) ∧
    (netInNotify w c hostPort (if containerPort = 0 then hostPort else containerPort) = some () →
      w.Run (netCmd w c hostPort (if containerPort = 0 then hostPort else containerPort)) = none →
      c.NetIn w hostPort containerPort
        = some ((hostPort, (if containerPort = 0 then hostPort else containerPort), none),
            { c with spec := { c.spec with NetIns := c.spec.NetIns ++
              [⟨hostPort, if containerPort = 0 then hostPort else containerPort⟩] } })) ∧
    (netInNotify w c hostPort (if containerPort = 0 then hostPort else containerPort) = some () →
      ∀ msg,
      w.Run (netCmd w c hostPort (if containerPort = 0 then hostPort else containerPort))
        = some msg →
      c.NetIn w hostPort containerPort = some ((0, 0, some (.Collaborator msg)), c)) ∧
    (c.NetIn w hostPort containerPort = none ↔
      netInNotify w c hostPort (if containerPort = 0 then hostPort else containerPort) = none) := by
  have hacq := netInAcquire_hostPort w c hostPort hport
  have hdef : c.NetIn w hostPort containerPort
      = match netInNotify w c hostPort (if containerPort = 0 then hostPort else containerPort) with
        | none => none
        | some _ =>
          match w.Run (netCmd w c hostPort
              (if containerPort = 0 then hostPort else containerPort)) with
          | some msg => some ((0, 0, some (.Collaborator msg)), c)
          | none =>
            some ((hostPort, (if containerPort = 0 then hostPort else containerPort), none),
              { c with spec := { c.spec with NetIns := c.spec.NetIns ++
                [⟨hostPort, if containerPort = 0 then hostPort else containerPort⟩] } }) := by
    unfold LinuxContainer.NetIn
    rw [hacq]
  refine ⟨hacq, ?_, ?_, ?_, ?_⟩
  · intro r c' h
    rw [hdef] at h
    split at h
    · simp at h
    · split at h <;>
      · simp only [Option.some.injEq, Prod.mk.injEq] at h
        rw [← h.2]
  · intro hn hr
    rw [hdef, hn, hr]
  · intro hn msg hr
    rw [hdef, hn, hr]
  · rw [hdef]
    constructor
    · intro h
      split at h
      · assumption
      · split at h <;> simp at h
    · intro h
      rw [h]

/-- Witness of C21: `NetIn(8080, 0)` on a container whose path is empty, with a
runner that succeeds on the command `net.sh` only. -/
theorem NetIn_explicit_hostPort_witness :
    (NewLinuxContainer ⟨"id", "", "active", [], [], [("network.space_id", "s")], [], [], [],
        none, [], "10.0.0.1"⟩ ⟨1000, 4, [[1000, 1001], [1002, 1003]]⟩).NetIn
      { quietWorld with Run := fun cmd => if cmd.Path = "net.sh" then none else some "not found" }
      8080 0
      = some ((8080, 8080, none),
          NewLinuxContainer ⟨"id", "", "active", [], [], [("network.space_id", "s")],
            [⟨8080, 8080⟩], [], [], none, [], "10.0.0.1"⟩
            ⟨1000, 4, [[1000, 1001], [1002, 1003]]⟩) :=
  (NetIn_explicit_hostPort
    { quietWorld with Run := fun cmd => if cmd.Path = "net.sh" then none else some "not found" }
    (NewLinuxContainer ⟨"id", "", "active", [], [], [("network.space_id", "s")], [], [], [],
      none, [], "10.0.0.1"⟩ ⟨1000, 4, [[1000, 1001], [1002, 1003]]⟩) 8080 0
    (by decide)).2.2.1 (by decide) (by decide)

/-! ## `Start` and `Stop` -/

/-- C22: `Start` returns an error, leaves the container unchanged and does not
run `start.sh` when `ContainerSetup` fails; returns an error and leaves the
container unchanged when `start.sh` fails; and sets `State` to active and
returns nil when both succeed, `ContainerSetup` being called first.  `Stop`
returns the error of `stop.sh`, leaves the container unchanged and does not
call `Unwatch` when the script fails, and otherwise calls `Unwatch` and sets
`State` to stopped. -/
theorem Start_Stop_transitions (w : World) (c : LinuxContainer) (kill : Bool) :
    (∀ msg, w.ContainerSetup c.spec.ID = some msg →
      (c.Start w).1 = (some (.Collaborator ("container: start: " ++ msg)), c) ∧
      (c.Start w).2 = [.ContainerSetup c.spec.ID]) ∧
    (w.ContainerSetup c.spec.ID = none →
      ∀ msg, w.Run (startCmd w c) = some msg →
      (c.Start w).1 = (some (.Collaborator ("container: start: " ++ msg)), c)) ∧
    (w.ContainerSetup c.spec.ID = none → w.Run (startCmd w c) = none →
      (c.Start w).1 = (none, c.setState StateActive) ∧
      (c.Start w).2 = [.ContainerSetup c.spec.ID, .Run (startCmd w c)]) ∧
    (∀ msg, w.Run (stopCmd c kill) = some msg →
      (c.Stop w kill).1 = (some (.Collaborator msg), c) ∧
      Call.Unwatch ∉ (c.Stop w kill).2) ∧
    (w.Run (stopCmd c kill) = none →
      (c.Stop w kill).1 = (none, c.setState StateStopped) ∧
      (c.Stop w kill).2 = [.Run (stopCmd c kill), .Unwatch]) := by
  refine ⟨?_, ?_, ?_, ?_, ?_⟩
  · intro msg h
    simp only [LinuxContainer.Start, h, and_self]
  · intro h msg hr
    simp only [LinuxContainer.Start, h, hr]
  · intro h hr
    simp only [LinuxContainer.Start, h, hr, and_self]
  · intro msg hr
    simp [LinuxContainer.Stop, hr]
  · intro hr
    simp [LinuxContainer.Stop, hr, LinuxContainer.Cleanup]

/-- Witness of C22: `Start` on a container whose path is `/c/`, with a runner
that succeeds on the command `/c/start.sh` only. -/
theorem Start_Stop_transitions_witness :
    ((NewLinuxContainer ⟨"id", "/c/", "born", [], [], [], [], [], [], none, [], "10.0.0.1"⟩
        ⟨1000, 4, [[1000, 1001], [1002, 1003]]⟩).Start
      { quietWorld with
        Run := fun cmd => if cmd.Path = "/c/start.sh" then none else some "not found" }).1
      = (none, NewLinuxContainer ⟨"id", "/c/", StateActive, [], [], [], [], [], [], none, [],
          "10.0.0.1"⟩ ⟨1000, 4, [[1000, 1001], [1002, 1003]]⟩) :=
  ((Start_Stop_transitions
    { quietWorld with
      Run := fun cmd => if cmd.Path = "/c/start.sh" then none else some "not found" }
    (NewLinuxContainer ⟨"id", "/c/", "born", [], [], [], [], [], [], none, [], "10.0.0.1"⟩
      ⟨1000, 4, [[1000, 1001], [1002, 1003]]⟩) false).2.2.1 (by decide) (by decide)).1

/-! ## The locks of `Snapshot` -/

/-- C23 (as stated): at the moment `Snapshot` encodes its document the read locks
of state, events and properties are not held. -/
theorem Snapshot_encodes_without_state_lock :
    ∃ held, heldAtEncode SnapshotLocks [] = some held ∧
      Mutex.stateMutex ∉ held ∧ Mutex.eventsMutex ∉ held ∧ Mutex.propertiesMutex ∉ held := by
  refine ⟨_, rfl, ?_, ?_, ?_⟩ <;> decide

/-- C23 (amended): `Snapshot` acquires the read locks of bandwidth, cpu, disk,
memory, net-ins and net-outs in that order before anything else, holds exactly
these at the moment of encoding, and holds none when it returns. -/
theorem Snapshot_holds_limit_and_net_locks :
    SnapshotLocks.take 6
      = [.RLock .bandwidthMutex, .RLock .cpuMutex, .RLock .diskMutex, .RLock .memoryMutex,
          .RLock .netInsMutex, .RLock .netOutsMutex] ∧
    heldAtEncode SnapshotLocks []
      = some [.bandwidthMutex, .cpuMutex, .diskMutex, .memoryMutex, .netInsMutex,
          .netOutsMutex] ∧
    heldAfter SnapshotLocks [] = [] := by
  decide

end LinuxContainerModel
